import Mathlib

/-!
Verification of the `bd` issue tracker (Rust sources under `src/bd/src/`).

Rust `String` values are modelled as lists of bytes (`RStr := List Nat`),
matching `str::as_bytes`; ASCII literals are written through the helper
`str`.  Timestamps (`chrono::DateTime<Utc>`) are modelled as `Int`.
`i32`/`i64` are modelled as `Int` (no arithmetic in the verified code comes
close to overflow).  Fallible operations return `Except`/`Option` or carry an
explicit success flag.

The storage functions that are only `TODO` stubs in
`src/bd/src/storage/sqlite.rs` (`detect_cycles`, `get_ready_work`,
`get_epics_eligible_for_closure`) are modelled from the specification
(spec.md) and are marked as such in their doc comments.  Everything else is
translated from the Rust source.
-/

/-- A Rust `String`/`&str`, viewed as its byte sequence (`as_bytes`). -/
abbrev RStr := List Nat

/-- Byte sequence of an ASCII string literal (code points = UTF-8 bytes for
ASCII, which is all the source's literals use). -/
def str (s : String) : RStr := s.data.map Char.toNat

/-- Decimal digits of a natural number, fuel-indexed so that the definition is
structurally recursive (`natRepr` supplies enough fuel). -/
def natReprA : Nat → Nat → List Nat
  | 0, _ => []
  | f + 1, n => if n < 10 then [48 + n] else natReprA f (n / 10) ++ [48 + n % 10]

/-- Decimal representation of a `Nat` as ASCII bytes, as produced by Rust's
`format!` for unsigned values. -/
def natRepr (n : Nat) : RStr := natReprA (n + 1) n

/-- Decimal representation of an `Int` as ASCII bytes, as produced by Rust's
`format!("{}", i32)` (byte 45 is the minus sign). -/
def intRepr : Int → RStr
  | .ofNat n => natRepr n
  | .negSucc n => 45 :: natRepr (n + 1)

/-- `Status` from src/bd/src/types.rs. -/
inductive Status where
  | Open
  | InProgress
  | Blocked
  | Closed
deriving DecidableEq, Repr

/-- `Status::as_str` from src/bd/src/types.rs. -/
def Status.as_str : Status → RStr
  | .Open => str "open"
  | .InProgress => str "in_progress"
  | .Blocked => str "blocked"
  | .Closed => str "closed"

/-- `Status::is_valid` from src/bd/src/types.rs (all enum variants valid). -/
def Status.is_valid (_ : Status) : Bool := true

/-- `IssueType` from src/bd/src/types.rs. -/
inductive IssueType where
  | Bug
  | Feature
  | Task
  | Epic
  | Chore
deriving DecidableEq, Repr

/-- `IssueType::as_str` from src/bd/src/types.rs. -/
def IssueType.as_str : IssueType → RStr
  | .Bug => str "bug"
  | .Feature => str "feature"
  | .Task => str "task"
  | .Epic => str "epic"
  | .Chore => str "chore"

/-- `IssueType::is_valid` from src/bd/src/types.rs (all enum variants valid). -/
def IssueType.is_valid (_ : IssueType) : Bool := true

/-- `DependencyType` from src/bd/src/types.rs. -/
inductive DependencyType where
  | Blocks
  | Related
  | ParentChild
  | DiscoveredFrom
deriving DecidableEq, Repr

/-- `DependencyType::as_str` from src/bd/src/types.rs. -/
def DependencyType.as_str : DependencyType → RStr
  | .Blocks => str "blocks"
  | .Related => str "related"
  | .ParentChild => str "parent-child"
  | .DiscoveredFrom => str "discovered-from"

/-- `Dependency` from src/bd/src/types.rs. -/
structure Dependency where
  issue_id : RStr
  depends_on_id : RStr
  dep_type : DependencyType
  created_at : Int
  created_by : RStr
deriving DecidableEq, Repr

/-- `Comment` from src/bd/src/types.rs. -/
structure Comment where
  id : Int
  issue_id : RStr
  author : RStr
  text : RStr
  created_at : Int
deriving DecidableEq, Repr

/-- `Issue` from src/bd/src/types.rs. -/
structure Issue where
  id : RStr
  content_hash : Option RStr
  title : RStr
  description : RStr
  design : RStr
  acceptance_criteria : RStr
  notes : RStr
  status : Status
  priority : Int
  issue_type : IssueType
  assignee : RStr
  estimated_minutes : Option Int
  created_at : Int
  updated_at : Int
  closed_at : Option Int
  external_ref : Option RStr
  compaction_level : Int
  compacted_at : Option Int
  compacted_at_commit : Option RStr
  original_size : Int
  source_repo : RStr
  labels : List RStr
  dependencies : List Dependency
  comments : List Comment
deriving DecidableEq, Repr

/-- The trailing `external_ref` bytes of the hash input: the contents when
present, nothing when absent (`if let Some(ref external_ref) = ...`). -/
def extBytes : Option RStr → List Nat
  | some r => r
  | none => []

/-- The byte stream fed to the SHA-256 hasher in
`Issue::compute_content_hash` (src/bd/src/types.rs): the substantive fields
in order, each followed by a `0u8` separator, and finally the bytes of
`external_ref` when it is present (with no separator). -/
def contentBytes (i : Issue) : List Nat :=
  i.title ++ 0 ::
  (i.description ++ 0 ::
  (i.design ++ 0 ::
  (i.acceptance_criteria ++ 0 ::
  (i.notes ++ 0 ::
  (i.status.as_str ++ 0 ::
  (intRepr i.priority ++ 0 ::
  (i.issue_type.as_str ++ 0 ::
  (i.assignee ++ 0 ::
  extBytes i.external_ref))))))))

/-- `Issue::validate` from src/bd/src/types.rs (errors carry the message
bytes; `Result<(), String>` becomes `Except RStr Unit`). -/
def Issue.validate (i : Issue) : Except RStr Unit :=
  if i.title = [] then
    .error (str "title is required")
  else if 500 < i.title.length then
    .error (str "title must be 500 characters or less (got " ++
      natRepr i.title.length ++ str ")")
  else if ¬(0 ≤ i.priority ∧ i.priority ≤ 4) then
    .error (str "priority must be between 0 and 4 (got " ++
      intRepr i.priority ++ str ")")
  else if ¬ i.status.is_valid then
    .error (str "invalid status: " ++ i.status.as_str)
  else if ¬ i.issue_type.is_valid then
    .error (str "invalid issue type: " ++ i.issue_type.as_str)
  else if (match i.estimated_minutes with
           | some m => decide (m < 0)
           | none => false) then
    .error (str "estimated_minutes cannot be negative")
  else if i.status = Status.Closed ∧ i.closed_at = none then
    .error (str "closed issues must have closed_at timestamp")
  else if i.status ≠ Status.Closed ∧ i.closed_at ≠ none then
    .error (str "non-closed issues cannot have closed_at timestamp")
  else
    .ok ()

namespace Sha256

/-- Truncation to a 32-bit word. -/
def w32 (x : Nat) : Nat := x % 4294967296

/-- Rotate a 32-bit word right by n bits. -/
def rotr (n x : Nat) : Nat := w32 ((x >>> n) ||| (x <<< (32 - n)))

def smallSigma0 (x : Nat) : Nat := (rotr 7 x) ^^^ (rotr 18 x) ^^^ (x >>> 3)

def smallSigma1 (x : Nat) : Nat := (rotr 17 x) ^^^ (rotr 19 x) ^^^ (x >>> 10)

def bigSigma0 (x : Nat) : Nat := (rotr 2 x) ^^^ (rotr 13 x) ^^^ (rotr 22 x)

def bigSigma1 (x : Nat) : Nat := (rotr 6 x) ^^^ (rotr 11 x) ^^^ (rotr 25 x)

def chV (x y z : Nat) : Nat := (x &&& y) ^^^ ((x ^^^ 4294967295) &&& z)

def majV (x y z : Nat) : Nat := (x &&& y) ^^^ (x &&& z) ^^^ (y &&& z)

/-- The 64 SHA-256 round constants (decimal). -/
def K : List Nat :=
  [1116352408, 1899447441, 3049323471, 3921009573, 961987163, 1508970993,
   2453635748, 2870763221, 3624381080, 310598401, 607225278, 1426881987,
   1925078388, 2162078206, 2614888103, 3248222580, 3835390401, 4022224774,
   264347078, 604807628, 770255983, 1249150122, 1555081692, 1996064986,
   2554220882, 2821834349, 2952996808, 3210313671, 3336571891, 3584528711,
   113926993, 338241895, 666307205, 773529912, 1294757372, 1396182291,
   1695183700, 1986661051, 2177026350, 2456956037, 2730485921, 2820302411,
   3259730800, 3345764771, 3516065817, 3600352804, 4094571909, 275423344,
   430227734, 506948616, 659060556, 883997877, 958139571, 1322822218,
   1537002063, 1747873779, 1955562222, 2024104815, 2227730452, 2361852424,
   2428436474, 2756734187, 3204031479, 3329325298]

/-- The SHA-256 initial hash value (decimal). -/
def H0 : List Nat :=
  [1779033703, 3144134277, 1013904242, 2773480762,
   1359893119, 2600822924, 528734635, 1541459225]

/-- Big-endian byte representation of `x` in `k` bytes. -/
def beBytes : Nat → Nat → List Nat
  | 0, _ => []
  | k + 1, x => beBytes k (x / 256) ++ [x % 256]

/-- SHA-256 padding: append `0x80`, zero bytes to 56 mod 64, then the
64-bit big-endian bit length. -/
def padMsg (msg : List Nat) : List Nat :=
  msg ++ 0x80 :: (List.replicate ((119 - msg.length % 64) % 64) 0 ++
    beBytes 8 (8 * msg.length))

/-- Group a 64-byte chunk into 16 big-endian 32-bit words. -/
def toWords : List Nat → List Nat
  | b0 :: b1 :: b2 :: b3 :: rest =>
      (((b0 * 256 + b1) * 256 + b2) * 256 + b3) :: toWords rest
  | _ => []

/-- Extend 16 schedule words to 64. -/
def extendW (w : List Nat) : List Nat :=
  (List.range 48).foldl (fun ws i =>
    ws ++ [w32 (smallSigma1 (ws.getD (i + 14) 0) + ws.getD (i + 9) 0 +
      smallSigma0 (ws.getD (i + 1) 0) + ws.getD i 0)]) w

/-- One SHA-256 round on the eight working registers. -/
def round (s : List Nat) (kw : Nat × Nat) : List Nat :=
  match s with
  | [a, b, c, d, e, f, g, h] =>
      let t1 := w32 (h + bigSigma1 e + chV e f g + kw.1 + kw.2)
      let t2 := w32 (bigSigma0 a + majV a b c)
      [w32 (t1 + t2), a, b, c, w32 (d + t1), e, f, g]
  | _ => s

/-- Compress one 64-byte chunk into the running hash state. -/
def compress (h : List Nat) (chunk : List Nat) : List Nat :=
  let s := (K.zip (extendW (toWords chunk))).foldl round h
  (h.zip s).map (fun p => w32 (p.1 + p.2))

/-- Split into 64-byte chunks (fuel-indexed; the fuel is the list length). -/
def chunks64A : Nat → List Nat → List (List Nat)
  | 0, _ => []
  | _ + 1, [] => []
  | f + 1, l => l.take 64 :: chunks64A f (l.drop 64)

/-- SHA-256 digest (32 bytes) of a byte sequence. -/
def sha256 (msg : List Nat) : List Nat :=
  let padded := padMsg msg
  ((chunks64A padded.length padded).foldl compress H0).foldr
    (fun h acc => beBytes 4 h ++ acc) []

/-- Lowercase hex digit byte. -/
def hexDigit (d : Nat) : Nat := if d < 10 then 48 + d else 87 + d

/-- Lowercase hex rendering of a byte sequence, as Rust's
`format!("{:x}", digest)`. -/
def toHex (bytes : List Nat) : RStr :=
  bytes.foldr (fun b acc => hexDigit (b / 16) :: hexDigit (b % 16) :: acc) []

end Sha256

/-- `Issue::compute_content_hash` from src/bd/src/types.rs: the lowercase hex
SHA-256 digest of `contentBytes`. -/
def Issue.compute_content_hash (i : Issue) : RStr :=
  Sha256.toHex (Sha256.sha256 (contentBytes i))

/-- `EventType` from src/bd/src/types.rs. -/
inductive EventType where
  | Created
  | Updated
  | StatusChanged
  | Commented
  | Closed
  | Reopened
  | DependencyAdded
  | DependencyRemoved
  | LabelAdded
  | LabelRemoved
  | Compacted
deriving DecidableEq, Repr

/-- A JSON string literal: a quote byte (34), the ASCII contents, a quote. -/
def jsonStr (w : String) : RStr := 34 :: (str w ++ [34])

/-- `serde_json::to_string(&event_type)` as used by `record_event`
(src/bd/src/storage/sqlite.rs): the snake_case name as a quoted JSON
string. -/
def EventType.toJson : EventType → RStr
  | .Created => jsonStr "created"
  | .Updated => jsonStr "updated"
  | .StatusChanged => jsonStr "status_changed"
  | .Commented => jsonStr "commented"
  | .Closed => jsonStr "closed"
  | .Reopened => jsonStr "reopened"
  | .DependencyAdded => jsonStr "dependency_added"
  | .DependencyRemoved => jsonStr "dependency_removed"
  | .LabelAdded => jsonStr "label_added"
  | .LabelRemoved => jsonStr "label_removed"
  | .Compacted => jsonStr "compacted"

/-- `serde_json::from_str::<Status>` as used by `get_issue`
(src/bd/src/storage/sqlite.rs): succeeds exactly on the quoted JSON string
for a snake_case variant name; any other byte sequence (in particular the
bare, unquoted output of `Status::as_str`) is not a valid JSON document and
yields an error (`none`). -/
def statusFromJson (s : RStr) : Option Status :=
  if s = jsonStr "open" then some .Open
  else if s = jsonStr "in_progress" then some .InProgress
  else if s = jsonStr "blocked" then some .Blocked
  else if s = jsonStr "closed" then some .Closed
  else none

/-- `serde_json::from_str::<IssueType>` as used by `get_issue`
(src/bd/src/storage/sqlite.rs), analogous to `statusFromJson`. -/
def issueTypeFromJson (s : RStr) : Option IssueType :=
  if s = jsonStr "bug" then some .Bug
  else if s = jsonStr "feature" then some .Feature
  else if s = jsonStr "task" then some .Task
  else if s = jsonStr "epic" then some .Epic
  else if s = jsonStr "chore" then some .Chore
  else none

/-- A row of the `issues` table, with the column values exactly as bound by
`create_issue` (src/bd/src/storage/sqlite.rs): `status` and `issue_type` are
stored as the text produced by `as_str`. -/
structure IssueRow where
  id : RStr
  content_hash : Option RStr
  title : RStr
  description : RStr
  design : RStr
  acceptance_criteria : RStr
  notes : RStr
  status : RStr
  priority : Int
  issue_type : RStr
  assignee : RStr
  estimated_minutes : Option Int
  created_at : Int
  updated_at : Int
  closed_at : Option Int
  external_ref : Option RStr
  compaction_level : Int
  compacted_at : Option Int
  compacted_at_commit : Option RStr
  original_size : Int
  source_repo : RStr
deriving DecidableEq, Repr

/-- A row of the `dependencies` table (`type` stored via
`DependencyType::as_str`, as bound by `add_dependency`). -/
structure DepRow where
  issue_id : RStr
  depends_on_id : RStr
  dep_type : RStr
  created_at : Int
  created_by : RStr
deriving DecidableEq, Repr

/-- A row of the `events` table, as bound by `record_event`
(src/bd/src/storage/sqlite.rs); the autoincrement id is the list position. -/
structure EventRow where
  issue_id : RStr
  event_type : RStr
  actor : RStr
  old_value : Option RStr
  new_value : Option RStr
  comment : Option RStr
deriving DecidableEq, Repr

/-- A row of the `comments` table as bound by `add_issue_comment`
(the insert binds issue_id, author, text; `id` is the SQLite rowid). -/
structure CommentRow where
  id : Int
  issue_id : RStr
  author : RStr
  text : RStr
deriving DecidableEq, Repr

/-- The observable state of the SQLite database: the tables the verified
operations touch.  `dirty_issues` is kept in `marked_at` order (the order
`get_dirty_issues` returns). -/
structure Store where
  issues : List IssueRow
  dependencies : List DepRow
  labels : List (RStr × RStr)
  comments : List CommentRow
  events : List EventRow
  dirty_issues : List RStr
  next_comment_rowid : Int
deriving DecidableEq, Repr

def emptyStore : Store := ⟨[], [], [], [], [], [], 0⟩

/-- One SQL statement executed in autocommit mode: it either commits its
effect or fails (`none`) leaving the store as it was.  The Rust code runs the
statements of each operation directly on the connection, without a
transaction, so there is no rollback across statements. -/
abbrev Step := Store → Option Store

/-- Run the statements of one storage operation in order.  `fault k = true`
injects an external failure (e.g. disk I/O) into the `k`-th statement.  On
the first failure the operation returns the error (`false`) to the caller;
effects already committed by earlier statements remain. -/
def runOp : List Step → (Nat → Bool) → Nat → Store → Store × Bool
  | [], _, _, st => (st, true)
  | s :: rest, fault, k, st =>
    if fault k then (st, false)
    else
      match s st with
      | none => (st, false)
      | some st' => runOp rest fault (k + 1) st'

/-- Run an operation with no injected faults. -/
def runSteps (steps : List Step) (st : Store) : Store × Bool :=
  runOp steps (fun _ => false) 0 st

/-- `record_event` from src/bd/src/storage/sqlite.rs: append one row to the
`events` table. -/
def record_event (issue_id : RStr) (event_type : EventType) (actor : RStr)
    (old_value new_value comment : Option RStr) : Step :=
  fun st => some { st with
    events := st.events ++
      [⟨issue_id, event_type.toJson, actor, old_value, new_value, comment⟩] }

/-- `mark_dirty` from src/bd/src/storage/sqlite.rs:
`INSERT OR REPLACE INTO dirty_issues (issue_id)`.  A replace refreshes the
row's `marked_at`, which moves the id to the end of the `marked_at` order. -/
def mark_dirty (issue_id : RStr) : Step :=
  fun st => some { st with
    dirty_issues := st.dirty_issues.filter (fun x => decide (x ≠ issue_id)) ++
      [issue_id] }

/-- The `issues` row that `create_issue` binds from an `Issue`. -/
def rowOfIssue (i : Issue) : IssueRow :=
  ⟨i.id, i.content_hash, i.title, i.description, i.design,
   i.acceptance_criteria, i.notes, i.status.as_str, i.priority,
   i.issue_type.as_str, i.assignee, i.estimated_minutes, i.created_at,
   i.updated_at, i.closed_at, i.external_ref, i.compaction_level,
   i.compacted_at, i.compacted_at_commit, i.original_size, i.source_repo⟩

/-- The `INSERT INTO issues` statement of `create_issue`: fails on a
duplicate primary key (issue ids are unique), otherwise appends the row. -/
def insert_issue (i : Issue) : Step :=
  fun st =>
    if st.issues.any (fun r => decide (r.id = i.id)) then none
    else some { st with issues := st.issues ++ [rowOfIssue i] }

/-- The statement sequence of `create_issue`
(src/bd/src/storage/sqlite.rs, lines 79-118). -/
def create_issue_steps (i : Issue) (actor : RStr) : List Step :=
  [insert_issue i,
   record_event i.id .Created actor none none none,
   mark_dirty i.id]

/-- `create_issue` from src/bd/src/storage/sqlite.rs. -/
def create_issue (st : Store) (i : Issue) (actor : RStr) : Store × Bool :=
  runSteps (create_issue_steps i actor) st

/-- Whether `key` is one of the TEXT columns of the `issues` table modelled
for `update_issue`'s interpolated `UPDATE issues SET {key} = ?`; a name that
is not a column makes the statement fail to prepare, as in SQLite.  (The
numeric and timestamp columns, which no verified claim exercises, are not
modelled as updatable.) -/
def valid_text_column (key : RStr) : Bool :=
  decide (key = str "title") || decide (key = str "description") ||
  decide (key = str "design") || decide (key = str "acceptance_criteria") ||
  decide (key = str "notes") || decide (key = str "assignee") ||
  decide (key = str "status") || decide (key = str "source_repo")

/-- Store `value` into the column named `key` of a row. -/
def set_column (key value : RStr) (r : IssueRow) : IssueRow :=
  if key = str "title" then { r with title := value }
  else if key = str "description" then { r with description := value }
  else if key = str "design" then { r with design := value }
  else if key = str "acceptance_criteria" then { r with acceptance_criteria := value }
  else if key = str "notes" then { r with notes := value }
  else if key = str "assignee" then { r with assignee := value }
  else if key = str "status" then { r with status := value }
  else if key = str "source_repo" then { r with source_repo := value }
  else r

/-- One `UPDATE issues SET {key} = ?, updated_at = ? WHERE id = ?` statement
of `update_issue`: updates every matching row (zero rows is a success, as in
SQL). -/
def update_field (id key value : RStr) (now : Int) : Step :=
  fun st =>
    if valid_text_column key then
      some { st with
        issues := st.issues.map (fun r =>
          if r.id = id then { set_column key value r with updated_at := now }
          else r) }
    else none

/-- The statement sequence of `update_issue`
(src/bd/src/storage/sqlite.rs, lines 190-202): per update key, the UPDATE
then its `Updated` event; finally one dirty mark.  The `HashMap` iteration
is modelled as a list of key/value pairs in some iteration order. -/
def update_issue_steps (id : RStr) (updates : List (RStr × RStr))
    (actor : RStr) (now : Int) : List Step :=
  (updates.map (fun kv =>
    [update_field id kv.1 kv.2 now,
     record_event id .Updated actor none (some kv.2) none])).flatten ++
  [mark_dirty id]

/-- `update_issue` from src/bd/src/storage/sqlite.rs. -/
def update_issue (st : Store) (id : RStr) (updates : List (RStr × RStr))
    (actor : RStr) (now : Int) : Store × Bool :=
  runSteps (update_issue_steps id updates actor now) st

/-- The `UPDATE issues SET status = 'closed', closed_at = ?, updated_at = ?
WHERE id = ?` statement of `close_issue` (zero matching rows is a success). -/
def close_update (id : RStr) (now : Int) : Step :=
  fun st =>
    some { st with
      issues := st.issues.map (fun r =>
        if r.id = id then
          { r with status := str "closed", closed_at := some now,
                   updated_at := now }
        else r) }

/-- The statement sequence of `close_issue`
(src/bd/src/storage/sqlite.rs, lines 204-217). -/
def close_issue_steps (id reason actor : RStr) (now : Int) : List Step :=
  [close_update id now,
   record_event id .Closed actor none none (some reason),
   mark_dirty id]

/-- `close_issue` from src/bd/src/storage/sqlite.rs. -/
def close_issue (st : Store) (id reason actor : RStr) (now : Int) :
    Store × Bool :=
  runSteps (close_issue_steps id reason actor now) st

/-- The `INSERT INTO dependencies` statement of `add_dependency`. -/
def insert_dependency (d : Dependency) : Step :=
  fun st =>
    some { st with
      dependencies := st.dependencies ++
        [⟨d.issue_id, d.depends_on_id, d.dep_type.as_str, d.created_at,
          d.created_by⟩] }

/-- The statement sequence of `add_dependency`
(src/bd/src/storage/sqlite.rs, lines 230-249). -/
def add_dependency_steps (d : Dependency) (actor : RStr) : List Step :=
  [insert_dependency d,
   record_event d.issue_id .DependencyAdded actor none (some d.depends_on_id)
     none,
   mark_dirty d.issue_id]

/-- `add_dependency` from src/bd/src/storage/sqlite.rs. -/
def add_dependency (st : Store) (d : Dependency) (actor : RStr) :
    Store × Bool :=
  runSteps (add_dependency_steps d actor) st

/-- The `DELETE FROM dependencies WHERE issue_id = ? AND depends_on_id = ?`
statement of `remove_dependency`. -/
def delete_dependency (issue_id depends_on_id : RStr) : Step :=
  fun st =>
    some { st with
      dependencies := st.dependencies.filter (fun r =>
        decide (¬(r.issue_id = issue_id ∧ r.depends_on_id = depends_on_id))) }

/-- The statement sequence of `remove_dependency`
(src/bd/src/storage/sqlite.rs, lines 251-263). -/
def remove_dependency_steps (issue_id depends_on_id actor : RStr) :
    List Step :=
  [delete_dependency issue_id depends_on_id,
   record_event issue_id .DependencyRemoved actor (some depends_on_id) none
     none,
   mark_dirty issue_id]

/-- `remove_dependency` from src/bd/src/storage/sqlite.rs. -/
def remove_dependency (st : Store) (issue_id depends_on_id actor : RStr) :
    Store × Bool :=
  runSteps (remove_dependency_steps issue_id depends_on_id actor) st

/-- The `INSERT OR IGNORE INTO labels` statement of `add_label`. -/
def insert_label (issue_id label : RStr) : Step :=
  fun st =>
    if (issue_id, label) ∈ st.labels then some st
    else some { st with labels := st.labels ++ [(issue_id, label)] }

/-- The statement sequence of `add_label`
(src/bd/src/storage/sqlite.rs, lines 300-312). -/
def add_label_steps (issue_id label actor : RStr) : List Step :=
  [insert_label issue_id label,
   record_event issue_id .LabelAdded actor none (some label) none,
   mark_dirty issue_id]

/-- `add_label` from src/bd/src/storage/sqlite.rs. -/
def add_label (st : Store) (issue_id label actor : RStr) : Store × Bool :=
  runSteps (add_label_steps issue_id label actor) st

/-- The `DELETE FROM labels WHERE issue_id = ? AND label = ?` statement of
`remove_label`. -/
def delete_label (issue_id label : RStr) : Step :=
  fun st =>
    some { st with
      labels := st.labels.filter (fun p =>
        decide (¬(p.1 = issue_id ∧ p.2 = label))) }

/-- The statement sequence of `remove_label`
(src/bd/src/storage/sqlite.rs, lines 314-326). -/
def remove_label_steps (issue_id label actor : RStr) : List Step :=
  [delete_label issue_id label,
   record_event issue_id .LabelRemoved actor (some label) none none,
   mark_dirty issue_id]

/-- `remove_label` from src/bd/src/storage/sqlite.rs. -/
def remove_label (st : Store) (issue_id label actor : RStr) : Store × Bool :=
  runSteps (remove_label_steps issue_id label actor) st

/-- The `INSERT INTO comments` statement of `add_issue_comment`; the new
row takes the next SQLite rowid. -/
def insert_comment (issue_id author text : RStr) : Step :=
  fun st =>
    some { st with
      comments := st.comments ++
        [⟨st.next_comment_rowid + 1, issue_id, author, text⟩],
      next_comment_rowid := st.next_comment_rowid + 1 }

/-- The statement sequence of `add_issue_comment`
(src/bd/src/storage/sqlite.rs, lines 372-392). -/
def add_issue_comment_steps (issue_id author text : RStr) : List Step :=
  [insert_comment issue_id author text,
   record_event issue_id .Commented author none none (some text),
   mark_dirty issue_id]

/-- `add_issue_comment` from src/bd/src/storage/sqlite.rs. -/
def add_issue_comment (st : Store) (issue_id author text : RStr) :
    Store × Bool :=
  runSteps (add_issue_comment_steps issue_id author text) st

/-- `get_dirty_issues` from src/bd/src/storage/sqlite.rs: the dirty ids in
`marked_at` order. -/
def get_dirty_issues (st : Store) : List RStr := st.dirty_issues

/-- The outcome of `get_issue`: a normal result, or a Rust panic (the
`.unwrap()` on the serde parse of `status`/`issue_type`). -/
inductive GetIssueResult where
  | ok : Option Issue → GetIssueResult
  | panicked : GetIssueResult
deriving DecidableEq, Repr

/-- `get_issue` from src/bd/src/storage/sqlite.rs (lines 127-170): look up
the row by id, rebuild an `Issue` with empty labels/dependencies/comments;
`status` and `issue_type` are parsed with `serde_json::from_str(..).unwrap()`,
which panics when the stored text is not a JSON document. -/
def get_issue (st : Store) (id : RStr) : GetIssueResult :=
  match st.issues.find? (fun r => decide (r.id = id)) with
  | none => .ok none
  | some r =>
    match statusFromJson r.status, issueTypeFromJson r.issue_type with
    | some s, some t =>
        .ok (some
          ⟨r.id, r.content_hash, r.title, r.description, r.design,
           r.acceptance_criteria, r.notes, s, r.priority, t, r.assignee,
           r.estimated_minutes, r.created_at, r.updated_at, r.closed_at,
           r.external_ref, r.compaction_level, r.compacted_at,
           r.compacted_at_commit, r.original_size, r.source_repo, [], [], []⟩)
    | _, _ => .panicked

section Graph

variable {α : Type} [DecidableEq α]

/-- Successors of `u` in a directed edge list. -/
def succs (es : List (α × α)) (u : α) : List α :=
  (es.filter (fun e => decide (e.1 = u))).map (·.2)

/-- All endpoints of an edge list, deduplicated. -/
def nodesOf (es : List (α × α)) : List α :=
  (es.map (·.1) ++ es.map (·.2)).dedup

/-- The suffix of `l` starting at the first occurrence of `u`. -/
def dropTo (u : α) : List α → List α
  | [] => []
  | x :: t => if x = u then x :: t else dropTo u t

/-- Modelled from the spec (§4.1 Cycle detection — `detect_cycles` is a TODO
stub in src/bd/src/storage/sqlite.rs): depth-first traversal with three-color
marking.  `path` is the in-progress (gray) stack; the accumulator holds the
done (black) nodes, most recently finished first, and the cycles emitted so
far.  On meeting an in-progress node, the path slice from that node to the
current node inclusive is emitted.  The fuel bounds the recursion depth; the
caller supplies more fuel than there are nodes, which is never exhausted. -/
def visit (es : List (α × α)) : Nat → List α → α →
    List α × List (List α) → List α × List (List α)
  | 0, _, _, bc => bc
  | fuel + 1, path, u, bc =>
    if u ∈ bc.1 then bc
    else if u ∈ path then (bc.1, bc.2 ++ [dropTo u path])
    else
      let r := (succs es u).foldl
        (fun acc v => visit es fuel (path ++ [u]) v acc) bc
      (u :: r.1, r.2)

/-- Modelled from the spec (§4.1): run the three-color DFS from every
unvisited node. -/
def dfsAll (es : List (α × α)) : List α × List (List α) :=
  (nodesOf es).foldl
    (fun acc u => visit es ((nodesOf es).length + 1) [] u acc) ([], [])

/-- A directed cycle in an edge list: a nonempty closed edge walk
`x → … → x`. -/
def IsCycle (es : List (α × α)) (c : List α) : Prop :=
  ∃ x t, c = x :: t ∧ List.Chain (fun a b => (a, b) ∈ es) x (t ++ [x])

/-- A directed graph is acyclic when it has no closed walk. -/
def Acyclic (es : List (α × α)) : Prop := ¬ ∃ c, IsCycle es c

/-- Position of the first occurrence of `x` in a list. -/
def posIn (x : α) : List α → Nat
  | [] => 0
  | a :: t => if a = x then 0 else posIn x t + 1
/-- The black list is in reverse-topological order: every node, finished
most recently first, has all its successors among the nodes finished before
it. -/
def RTopo (es : List (α × α)) : List α → Prop
  | [] => True
  | u :: t => (∀ v ∈ succs es u, v ∈ t) ∧ RTopo es t
/-- The gray stack is a real directed path. -/
def PathOk (es : List (α × α)) (path : List α) : Prop :=
  List.Chain' (fun a c => (a, c) ∈ es) path

end Graph

/-- Modelled from the spec (§3 Dependency, §4.1): only `blocks` and
`parent-child` edges impose ordering constraints; each participating
dependency row is the directed edge issue → the issue it depends on. -/
def restrictedEdges (deps : List DepRow) : List (RStr × RStr) :=
  (deps.filter (fun d => decide (d.dep_type = str "blocks") ||
    decide (d.dep_type = str "parent-child"))).map
    (fun d => (d.issue_id, d.depends_on_id))

/-- Modelled from the spec (§4.1 Cycle detection; `detect_cycles` is a TODO
stub in src/bd/src/storage/sqlite.rs, lines 295-298): the set of cycles found
by the three-color DFS over the restricted edge set, each as the ordered id
sequence forming the cycle. -/
def detect_cycles (deps : List DepRow) : List (List RStr) :=
  (dfsAll (restrictedEdges deps)).2

/-- `SortPolicy` from src/bd/src/types.rs. -/
inductive SortPolicy where
  | Hybrid
  | Priority
  | Oldest
deriving DecidableEq, Repr

/-- `WorkFilter` from src/bd/src/types.rs. -/
structure WorkFilter where
  status : Status
  priority : Option Int
  assignee : Option RStr
  labels : List RStr
  labels_any : List RStr
  limit : Int
  sort_policy : SortPolicy
deriving DecidableEq, Repr

/-- `WorkFilter::default` from src/bd/src/types.rs. -/
def WorkFilter.default : WorkFilter :=
  ⟨Status.Open, none, none, [], [], 0, SortPolicy.Hybrid⟩

/-- Modelled from the spec (§4.2 Readiness): a dependency row is an
unresolved blocker when it is `blocks`-typed and its target issue exists with
a status other than `closed`; a dangling target is no constraint. -/
def unresolvedBlocker (st : Store) (d : DepRow) : Bool :=
  decide (d.dep_type = str "blocks") &&
  (match st.issues.find? (fun r => decide (r.id = d.depends_on_id)) with
   | some t => decide (t.status ≠ str "closed")
   | none => false)

/-- Modelled from the spec (§4.2 Readiness): the caller's filter — priority,
assignee, required labels (AND), any-of labels (OR). -/
def matchesWorkFilter (st : Store) (f : WorkFilter) (r : IssueRow) : Bool :=
  (match f.priority with
   | some p => decide (r.priority = p)
   | none => true) &&
  (match f.assignee with
   | some a => decide (r.assignee = a)
   | none => true) &&
  f.labels.all (fun l => decide ((r.id, l) ∈ st.labels)) &&
  (f.labels_any.isEmpty ||
    f.labels_any.any (fun l => decide ((r.id, l) ∈ st.labels)))

/-- Modelled from the spec (§4.2 Readiness): ready iff status is `open`,
zero unresolved blocking dependencies, and the filter matches. -/
def isReady (st : Store) (f : WorkFilter) (r : IssueRow) : Bool :=
  decide (r.status = str "open") &&
  st.dependencies.all (fun d =>
    !(decide (d.issue_id = r.id) && unresolvedBlocker st d)) &&
  matchesWorkFilter st f r

/-- Priority ascending, ties broken by creation time ascending. -/
def prioLe (a b : IssueRow) : Prop :=
  a.priority < b.priority ∨
  (a.priority = b.priority ∧ a.created_at ≤ b.created_at)

instance : DecidableRel prioLe := fun a b => by
  unfold prioLe; infer_instance

/-- Creation time ascending (oldest first). -/
def ageLe (a b : IssueRow) : Prop := a.created_at ≤ b.created_at

instance : DecidableRel ageLe := fun a b => by
  unfold ageLe; infer_instance

/-- Modelled from the spec (§4.2): 48 hours, with timestamps in seconds. -/
def recentWindow : Int := 172800

/-- Modelled from the spec (§4.2 Readiness sort policies): `priority`,
`oldest`, or `hybrid` (recent issues by priority first, older ones appended
oldest first). -/
def sortReady (policy : SortPolicy) (now : Int) (rows : List IssueRow) :
    List IssueRow :=
  match policy with
  | .Priority => rows.insertionSort prioLe
  | .Oldest => rows.insertionSort ageLe
  | .Hybrid =>
      (rows.filter (fun r =>
        decide (now - r.created_at < recentWindow))).insertionSort prioLe ++
      (rows.filter (fun r =>
        decide (¬(now - r.created_at < recentWindow)))).insertionSort ageLe

/-- Modelled from the spec (§4.2): `limit ≤ 0` means unbounded. -/
def applyLimit (limit : Int) (l : List IssueRow) : List IssueRow :=
  if limit ≤ 0 then l else l.take limit.toNat

/-- Modelled from the spec (§4.2 Readiness; `get_ready_work` is a TODO stub
in src/bd/src/storage/sqlite.rs, lines 342-345): the ready rows, sorted by
the filter's policy and bounded by its limit. -/
def get_ready_work (st : Store) (f : WorkFilter) (now : Int) :
    List IssueRow :=
  applyLimit f.limit (sortReady f.sort_policy now
    (st.issues.filter (isReady st f)))

/-- `EpicStatus` from src/bd/src/types.rs, with the epic given by its stored
row (counts as `Nat`; the Rust `i32` counts are list lengths, always
nonnegative). -/
structure EpicStatusR where
  epic : IssueRow
  total_children : Nat
  closed_children : Nat
  eligible_for_close : Bool
deriving DecidableEq, Repr

/-- Modelled from the spec (§4.2 Epic closure eligibility): the children of
an epic are the issues linked to it by a `parent-child` edge with the epic on
the `depends_on_id` side; a dangling child id resolves to nothing. -/
def childrenOf (st : Store) (epicId : RStr) : List IssueRow :=
  (st.dependencies.filter (fun d => decide (d.depends_on_id = epicId) &&
    decide (d.dep_type = str "parent-child"))).filterMap
    (fun d => st.issues.find? (fun r => decide (r.id = d.issue_id)))

/-- Modelled from the spec (§4.2): one epic's status entry — eligible iff it
has more than zero children and every child is closed. -/
def epicStatusOf (st : Store) (e : IssueRow) : EpicStatusR :=
  let ch := childrenOf st e.id
  let cl := ch.filter (fun c => decide (c.status = str "closed"))
  ⟨e, ch.length, cl.length,
   decide (0 < ch.length) && decide (cl.length = ch.length)⟩

/-- Modelled from the spec (§4.2 Epic closure eligibility;
`get_epics_eligible_for_closure` is a TODO stub in
src/bd/src/storage/sqlite.rs, lines 352-355): the status entry of every issue
of type `epic`. -/
def get_epics_eligible_for_closure (st : Store) : List EpicStatusR :=
  (st.issues.filter (fun r =>
    decide (r.issue_type = str "epic"))).map (epicStatusOf st)

/-- An issue used as concrete input: minimal fields. -/
def c2IssueA : Issue :=
  ⟨str "bd-1", none, str "t", str "d", [], [], [], .Open, 2, .Task, [],
   none, 0, 0, none, none, 0, none, none, 0, [], [], [], []⟩
/-- The same substantive content as `c2IssueA` under a different id, other
timestamps, a label, compaction metadata and an estimate. -/
def c2IssueB : Issue :=
  ⟨str "bd-2", some (str "h"), str "t", str "d", [], [], [], .Open, 2,
   .Task, [], some 30, 100, 200, none, none, 1, some 50, some (str "c"),
   7, str "repo", [str "l"], [], []⟩
/-- An issue with no external reference. -/
def c3IssueN : Issue :=
  ⟨str "bd-1", none, str "t", [], [], [], [], .Open, 2, .Task, [],
   none, 0, 0, none, none, 0, none, none, 0, [], [], [], []⟩
/-- The same issue with an empty-string external reference. -/
def c3IssueS : Issue := { c3IssueN with external_ref := some [] }
/-- An issue differing from `c3IssueN` only in its title. -/
def c3IssueT : Issue := { c3IssueN with title := str "u" }
/-- The validation-error condition exactly as the claim (and spec §7) words
it: title empty, title longer than 500, priority outside [0,4], invalid
status or issue type, or closed_at invariant violation (closed_at set
without status closed, or status closed without closed_at).  Stated from the
claim for comparison with the source's `Issue::validate`. -/
def specValidationErrorCond (i : Issue) : Bool :=
  decide (i.title = []) || decide (500 < i.title.length) ||
  decide (¬(0 ≤ i.priority ∧ i.priority ≤ 4)) ||
  !i.status.is_valid || !i.issue_type.is_valid ||
  (decide (i.status = Status.Closed) && decide (i.closed_at = none)) ||
  (decide (i.status ≠ Status.Closed) && decide (i.closed_at ≠ none))
/-- The extra check the source performs that the claim's list omits. -/
def negEstimatedMinutes (i : Issue) : Bool :=
  match i.estimated_minutes with
  | some m => decide (m < 0)
  | none => false
/-- A fully valid issue except for a negative time estimate. -/
def c7Issue : Issue :=
  ⟨str "bd-1", none, str "t", [], [], [], [], .Open, 2, .Task, [],
   some (-1), 0, 0, none, none, 0, none, none, 0, [], [], [], []⟩
/-- A store with one already-dirty id, used as concrete input. -/
def c6Store : Store := ⟨[], [], [], [], [], [str "z"], 0⟩
/-- A fresh issue to create in `c6Store`. -/
def c6Issue : Issue :=
  ⟨str "w", none, str "t", [], [], [], [], .Open, 2, .Task, [],
   none, 0, 0, none, none, 0, none, none, 0, [], [], [], []⟩
/-- A dependency whose issue side is the dirty id. -/
def c6Dep : Dependency := ⟨str "z", str "q", .Blocks, 0, str "me"⟩
/-- `mark_dirty (str "z") c6Store` re-marks the already-dirty id. -/
def c6Marked : Store := ⟨[], [], [], [], [], [str "z"], 0⟩
/-- The issue inserted by the non-atomic create_issue run. -/
def c8Issue : Issue :=
  ⟨str "bd-8", none, str "t", [], [], [], [], .Open, 2, .Task, [],
   none, 0, 0, none, none, 0, none, none, 0, [], [], [], []⟩
/-- A valid issue stored and read back. -/
def c10Issue : Issue :=
  ⟨str "bd-10", none, str "t", [], [], [], [], .Open, 2, .Task, [],
   none, 0, 0, none, none, 0, none, none, 0, [], [], [], []⟩
/-- Concrete open issue row A. -/
def c4RowA : IssueRow :=
  ⟨str "A", none, str "ta", [], [], [], [], str "open", 2, str "task", [],
   none, 0, 0, none, none, 0, none, none, 0, []⟩
/-- Concrete open issue row B. -/
def c4RowB : IssueRow :=
  ⟨str "B", none, str "tb", [], [], [], [], str "open", 1, str "task", [],
   none, 0, 0, none, none, 0, none, none, 0, []⟩
/-- A store with A, B and the single edge "B depends on A" (`blocks`). -/
def c4Store : Store :=
  ⟨[c4RowA, c4RowB], [⟨str "B", str "A", str "blocks", 0, str "me"⟩],
   [], [], [], [], 0⟩

section GraphLemmas

variable {α : Type} [DecidableEq α]

theorem dropTo_suffix (u : α) : ∀ l : List α, dropTo u l <:+ l
  | [] => List.suffix_refl []
  | x :: t => by
    unfold dropTo
    split
    · exact List.suffix_refl _
    · exact (dropTo_suffix u t).trans (List.suffix_cons x t)

theorem dropTo_mem_head (u : α) : ∀ {l : List α}, u ∈ l →
    ∃ t, dropTo u l = u :: t := by
  intro l
  induction l with
  | nil => intro h; cases h
  | cons x t ih =>
    intro h
    unfold dropTo
    split
    · next hx => exact ⟨t, by rw [hx]⟩
    · next hx =>
      rcases List.mem_cons.mp h with h | h
      · exact absurd h.symm hx
      · exact ih h

theorem dropTo_concat_self (u : α) : ∀ {l : List α}, u ∉ l →
    dropTo u (l ++ [u]) = [u] := by
  intro l
  induction l with
  | nil => intro _; simp [dropTo]
  | cons x t ih =>
    intro h
    have hx : x ≠ u := fun he => h (he ▸ List.mem_cons_self x t)
    have ht : u ∉ t := fun hm => h (List.mem_cons_of_mem x hm)
    simp only [List.cons_append]
    unfold dropTo
    rw [if_neg hx]
    exact ih ht

theorem mem_succs {es : List (α × α)} {u v : α} :
    v ∈ succs es u ↔ (u, v) ∈ es := by
  unfold succs
  constructor
  · intro h
    rcases List.mem_map.mp h with ⟨e, he, hv⟩
    have := List.mem_filter.mp he
    have h1 : e.1 = u := by simpa using this.2
    have : e = (u, v) := by
      cases e; simp_all
    exact this ▸ this.symm ▸ (List.mem_filter.mp he).1
  · intro h
    exact List.mem_map.mpr ⟨(u, v), List.mem_filter.mpr ⟨h, by simp⟩, rfl⟩

theorem fst_mem_nodesOf {es : List (α × α)} {e : α × α} (h : e ∈ es) :
    e.1 ∈ nodesOf es := by
  unfold nodesOf
  exact List.mem_dedup.mpr (List.mem_append_left _ (List.mem_map_of_mem _ h))

theorem snd_mem_nodesOf {es : List (α × α)} {e : α × α} (h : e ∈ es) :
    e.2 ∈ nodesOf es := by
  unfold nodesOf
  exact List.mem_dedup.mpr (List.mem_append_right _ (List.mem_map_of_mem _ h))

theorem succs_mem_nodesOf {es : List (α × α)} {u v : α}
    (h : v ∈ succs es u) : v ∈ nodesOf es :=
  snd_mem_nodesOf (mem_succs.mp h)

theorem nodesOf_nodup (es : List (α × α)) : (nodesOf es).Nodup :=
  List.nodup_dedup _

theorem RTopo_step {es : List (α × α)} {x y : α} :
    ∀ {b : List α}, RTopo es b → b.Nodup → x ∈ b → (x, y) ∈ es →
      y ∈ b ∧ posIn x b < posIn y b := by
  intro b
  induction b with
  | nil => intro _ _ hx; cases hx
  | cons a t ih =>
    intro ht hn hx he
    rcases List.mem_cons.mp hx with hax | hxt
    · have hsucc : y ∈ t := ht.1 y (mem_succs.mpr (hax ▸ he))
      have hya : a ≠ y := by
        intro hay
        exact (List.nodup_cons.mp hn).1 (hay ▸ hsucc)
      refine ⟨List.mem_cons_of_mem a hsucc, ?_⟩
      unfold posIn
      rw [if_pos hax.symm, if_neg hya]
      exact Nat.succ_pos _
    · have hres := ih ht.2 (List.nodup_cons.mp hn).2 hxt he
      have hxa : a ≠ x := by
        intro hax
        exact (List.nodup_cons.mp hn).1 (hax ▸ hxt)
      have hya : a ≠ y := by
        intro hay
        exact (List.nodup_cons.mp hn).1 (hay ▸ hres.1)
      refine ⟨List.mem_cons_of_mem a hres.1, ?_⟩
      unfold posIn
      rw [if_neg hxa, if_neg hya]
      exact Nat.succ_lt_succ hres.2

theorem RTopo_chain {es : List (α × α)} {b : List α}
    (ht : RTopo es b) (hn : b.Nodup) :
    ∀ {l : List α} {x : α}, x ∈ b →
      List.Chain (fun a c => (a, c) ∈ es) x l →
      ∀ z ∈ l, z ∈ b ∧ posIn x b < posIn z b := by
  intro l
  induction l with
  | nil => intro x _ _ z hz; cases hz
  | cons y t ih =>
    intro x hx hc z hz
    have hstep := RTopo_step ht hn hx (List.chain_cons.mp hc).1
    rcases List.mem_cons.mp hz with hzy | hzt
    · exact hzy ▸ hstep
    · have := ih hstep.1 (List.chain_cons.mp hc).2 z hzt
      exact ⟨this.1, Nat.lt_trans hstep.2 this.2⟩

theorem RTopo_acyclic {es : List (α × α)} {b : List α}
    (ht : RTopo es b) (hn : b.Nodup)
    (hall : ∀ u ∈ nodesOf es, u ∈ b) : Acyclic es := by
  rintro ⟨c, x, t, _, hc⟩
  have hx : x ∈ b := by
    apply hall
    cases t with
    | nil =>
      have h1 : (x, x) ∈ es := by simpa using hc
      exact @fst_mem_nodesOf _ _ es (x, x) h1
    | cons y s =>
      have h1 : (x, y) ∈ es := (@List.chain_cons _ _ x y (s ++ [x])).mp hc |>.1
      exact @fst_mem_nodesOf _ _ es (x, y) h1
  have := RTopo_chain ht hn hx hc x (by simp)
  exact Nat.lt_irrefl _ this.2

theorem RTopo_nil {es : List (α × α)} : RTopo es ([] : List α) := trivial

theorem RTopo_cons {es : List (α × α)} {u : α} {t : List α} :
    RTopo es (u :: t) ↔ (∀ v ∈ succs es u, v ∈ t) ∧ RTopo es t := Iff.rfl

theorem nodup_subset_length {l1 l2 : List α} (h : l1.Nodup)
    (hs : ∀ x ∈ l1, x ∈ l2) : l1.length ≤ l2.length := by
  have h1 : l1.toFinset.card = l1.length := List.toFinset_card_of_nodup h
  have h2 : l1.toFinset ⊆ l2.toFinset := by
    intro x hx
    simp only [List.mem_toFinset] at hx ⊢
    exact hs x hx
  calc l1.length = l1.toFinset.card := h1.symm
    _ ≤ l2.toFinset.card := Finset.card_le_card h2
    _ ≤ l2.length := l2.toFinset_card_le

theorem emitted_is_cycle {es : List (α × α)} {path : List α} {u : α}
    (hok : PathOk es path)
    (hlink : ∀ w ∈ path.getLast?, (w, u) ∈ es)
    (hu : u ∈ path) : IsCycle es (dropTo u path) := by
  obtain ⟨t, ht⟩ := dropTo_mem_head u hu
  have hsuff : (u :: t) <:+ path := ht ▸ dropTo_suffix u path
  have hchain : List.Chain' (fun a c => (a, c) ∈ es) (u :: t) :=
    List.Chain'.suffix hok hsuff
  obtain ⟨pre, hpre⟩ := hsuff
  have hlast : path.getLast? = (u :: t).getLast? := by
    rw [← hpre]
    exact List.getLast?_append_of_ne_nil pre (List.cons_ne_nil u t)
  have hclose : ∀ w ∈ (u :: t).getLast?, (w, u) ∈ es := by
    intro w hw
    exact hlink w (hlast ▸ hw)
  have happ : List.Chain' (fun a c => (a, c) ∈ es) ((u :: t) ++ [u]) :=
    List.chain'_append.mpr ⟨hchain, List.chain'_singleton u, by
      intro x hx y hy
      simp only [List.head?_cons, Option.mem_def, Option.some.injEq] at hy
      exact hy ▸ hclose x hx⟩
  refine ⟨u, t, ht, ?_⟩
  have hrw : (u :: t) ++ [u] = u :: (t ++ [u]) := by simp
  rw [hrw] at happ
  exact happ

theorem visit_succ_black {es : List (α × α)} {f : Nat} {path : List α}
    {u : α} {bc : List α × List (List α)} (h : u ∈ bc.1) :
    visit es (f + 1) path u bc = bc := by
  simp [visit, h]

theorem visit_succ_gray {es : List (α × α)} {f : Nat} {path : List α}
    {u : α} {bc : List α × List (List α)} (h1 : u ∉ bc.1) (h2 : u ∈ path) :
    visit es (f + 1) path u bc = (bc.1, bc.2 ++ [dropTo u path]) := by
  simp [visit, h1, h2]

theorem visit_succ_new {es : List (α × α)} {f : Nat} {path : List α}
    {u : α} {bc : List α × List (List α)} (h1 : u ∉ bc.1) (h2 : u ∉ path) :
    visit es (f + 1) path u bc =
      (u :: ((succs es u).foldl
        (fun acc v => visit es f (path ++ [u]) v acc) bc).1,
       ((succs es u).foldl
        (fun acc v => visit es f (path ++ [u]) v acc) bc).2) := by
  simp [visit, h1, h2]

/-- The master invariant of one DFS visit: monotone black/cycle growth with
fresh black nodes off the path, soundness of emitted cycles, completion of
the visited node, the exact result of a gray hit, propagation of reported
self-loops, and preservation of reverse-topological order when nothing was
emitted. -/
theorem visit_master (es : List (α × α)) :
    ∀ (fuel : Nat) (path : List α) (u : α) (bc : List α × List (List α)),
      u ∈ nodesOf es → (∀ x ∈ path, x ∈ nodesOf es) → path.Nodup →
      (nodesOf es).length + 1 ≤ fuel + path.length → bc.1.Nodup →
      (∃ nb, (visit es fuel path u bc).1 = nb ++ bc.1 ∧
        ∀ w ∈ nb, w ∉ path ∧ w ∉ bc.1) ∧
      (∃ nc, (visit es fuel path u bc).2 = bc.2 ++ nc ∧
        (PathOk es path → (∀ w ∈ path.getLast?, (w, u) ∈ es) →
          ∀ x ∈ nc, IsCycle es x)) ∧
      (visit es fuel path u bc).1.Nodup ∧
      (u ∈ (visit es fuel path u bc).1 ∨ u ∈ path) ∧
      (u ∈ path → u ∉ bc.1 →
        visit es fuel path u bc = (bc.1, bc.2 ++ [dropTo u path])) ∧
      ((∀ w ∈ bc.1, (w, w) ∈ es → [w] ∈ bc.2) →
        ∀ w ∈ (visit es fuel path u bc).1, (w, w) ∈ es →
          [w] ∈ (visit es fuel path u bc).2) ∧
      (RTopo es bc.1 → (visit es fuel path u bc).2 = bc.2 →
        RTopo es (visit es fuel path u bc).1) := by
  intro fuel
  induction fuel with
  | zero =>
    intro path u bc hu hp hnd hfuel hbnd
    exfalso
    have hle : path.length ≤ (nodesOf es).length :=
      nodup_subset_length hnd hp
    omega
  | succ f ih =>
    intro path u bc hu hp hnd hfuel hbnd
    by_cases hub : u ∈ bc.1
    · rw [visit_succ_black hub]
      exact ⟨⟨[], by simp, by simp⟩, ⟨[], by simp, by simp⟩, hbnd,
        Or.inl hub, fun _ hnb => absurd hub hnb, fun hsl => hsl,
        fun ht _ => ht⟩
    · by_cases hup : u ∈ path
      · rw [visit_succ_gray hub hup]
        refine ⟨⟨[], by simp, by simp⟩,
          ⟨[dropTo u path], by simp, ?_⟩, hbnd, Or.inr hup,
          fun _ _ => rfl, ?_, ?_⟩
        · intro hok hlink x hx
          rw [List.mem_singleton] at hx
          subst hx
          exact emitted_is_cycle hok hlink hup
        · intro hsl w hw he
          exact List.mem_append_left _ (hsl w hw he)
        · intro _ habs
          exfalso
          have hlen := congrArg List.length habs
          simp at hlen
      · -- a fresh (white) node: run the fold over its successors
        have hpath' : ∀ x ∈ path ++ [u], x ∈ nodesOf es := by
          intro x hx
          rcases List.mem_append.mp hx with h | h
          · exact hp x h
          · rw [List.mem_singleton] at h
            exact h ▸ hu
        have hnd' : (path ++ [u]).Nodup := by
          rw [List.nodup_append]
          refine ⟨hnd, List.nodup_singleton u, ?_⟩
          intro x hx hy
          rw [List.mem_singleton] at hy
          exact hup (hy ▸ hx)
        have hfuel' : (nodesOf es).length + 1 ≤ f + (path ++ [u]).length := by
          rw [List.length_append, List.length_singleton]
          omega
        have hlink' : ∀ v, ∀ w ∈ (path ++ [u]).getLast?, (u, v) ∈ es →
            (w, v) ∈ es := by
          intro v w hw hv
          rw [List.getLast?_concat] at hw
          simp only [Option.mem_def, Option.some.injEq] at hw
          exact hw ▸ hv
        -- the fold lemma over an arbitrary successor prefix
        have hfold : ∀ vs : List α, (∀ v ∈ vs, (u, v) ∈ es) →
            ∀ bc' : List α × List (List α), bc'.1.Nodup →
            (∃ nb, (vs.foldl
                (fun acc v => visit es f (path ++ [u]) v acc) bc').1 =
                nb ++ bc'.1 ∧
              ∀ w ∈ nb, w ∉ path ++ [u] ∧ w ∉ bc'.1) ∧
            (∃ nc, (vs.foldl
                (fun acc v => visit es f (path ++ [u]) v acc) bc').2 =
                bc'.2 ++ nc ∧
              (PathOk es (path ++ [u]) → ∀ x ∈ nc, IsCycle es x)) ∧
            (vs.foldl (fun acc v => visit es f (path ++ [u]) v acc)
              bc').1.Nodup ∧
            ((∀ w ∈ bc'.1, (w, w) ∈ es → [w] ∈ bc'.2) →
              ∀ w ∈ (vs.foldl
                (fun acc v => visit es f (path ++ [u]) v acc) bc').1,
                (w, w) ∈ es →
                [w] ∈ (vs.foldl
                  (fun acc v => visit es f (path ++ [u]) v acc) bc').2) ∧
            (∀ v ∈ vs, v ∈ path ++ [u] → v ∉ bc'.1 →
              dropTo v (path ++ [u]) ∈ (vs.foldl
                (fun acc v => visit es f (path ++ [u]) v acc) bc').2) ∧
            (RTopo es bc'.1 →
              (vs.foldl (fun acc v => visit es f (path ++ [u]) v acc)
                bc').2 = bc'.2 →
              RTopo es (vs.foldl
                (fun acc v => visit es f (path ++ [u]) v acc) bc').1 ∧
              ∀ v ∈ vs, v ∈ (vs.foldl
                (fun acc v => visit es f (path ++ [u]) v acc) bc').1) := by
          intro vs
          induction vs with
          | nil =>
            intro _ bc' hb'
            simp only [List.foldl_nil]
            exact ⟨⟨[], by simp, by simp⟩, ⟨[], by simp, by simp⟩, hb',
              fun h => h, by simp, fun ht _ => ⟨ht, by simp⟩⟩
          | cons v0 vs' ihv =>
            intro hvs bc' hb'
            have hv0 : (u, v0) ∈ es := hvs v0 (List.mem_cons_self _ _)
            have hv0N : v0 ∈ nodesOf es := @snd_mem_nodesOf _ _ es (u, v0) hv0
            obtain ⟨⟨nb1, hb1, hfresh1⟩, ⟨nc1, hc1, hcyc1⟩, hnd1, hmem1,
              hgray1, hsl1, htopo1⟩ :=
              ih (path ++ [u]) v0 bc' hv0N hpath' hnd' hfuel' hb'
            obtain ⟨⟨nb2, hb2, hfresh2⟩, ⟨nc2, hc2, hcyc2⟩, hnd2, hsl2,
              hemit2, htopo2⟩ :=
              ihv (fun v hv => hvs v (List.mem_cons_of_mem _ hv))
                (visit es f (path ++ [u]) v0 bc') hnd1
            rw [List.foldl_cons]
            refine ⟨⟨nb2 ++ nb1, ?_, ?_⟩, ⟨nc1 ++ nc2, ?_, ?_⟩, hnd2,
              ?_, ?_, ?_⟩
            · rw [hb2, hb1, List.append_assoc]
            · intro w hw
              rcases List.mem_append.mp hw with h | h
              · have := hfresh2 w h
                refine ⟨this.1, fun hwb => this.2 ?_⟩
                rw [hb1]
                exact List.mem_append_right _ hwb
              · exact hfresh1 w h
            · rw [hc2, hc1, List.append_assoc]
            · intro hok x hx
              rcases List.mem_append.mp hx with h | h
              · exact hcyc1 hok (fun w hw => hlink' v0 w hw hv0) x h
              · exact hcyc2 hok x h
            · intro hsl w hw he
              exact hsl2 (hsl1 hsl) w hw he
            · intro v hv hvp hvb
              rcases List.mem_cons.mp hv with h | h
              · subst h
                have hr1 := hgray1 hvp hvb
                have : dropTo v (path ++ [u]) ∈
                    (visit es f (path ++ [u]) v bc').2 := by
                  rw [hr1]
                  exact List.mem_append_right _ (List.mem_singleton.mpr rfl)
                rw [hc2]
                exact List.mem_append_left _ this
              · refine hemit2 v h hvp ?_
                rw [hb1]
                intro hmem
                rcases List.mem_append.mp hmem with hh | hh
                · exact (hfresh1 v hh).1 hvp
                · exact hvb hh
            · intro ht heq
              have hn1 : nc1 = [] ∧ nc2 = [] := by
                rw [hc1] at hc2
                rw [hc2] at heq
                have hlen := congrArg List.length heq
                simp [List.length_append] at hlen
                exact ⟨hlen.1, hlen.2⟩
              have hr1eq : (visit es f (path ++ [u]) v0 bc').2 = bc'.2 := by
                rw [hc1, hn1.1, List.append_nil]
              have hr2eq : (vs'.foldl
                  (fun acc v => visit es f (path ++ [u]) v acc)
                  (visit es f (path ++ [u]) v0 bc')).2 =
                  (visit es f (path ++ [u]) v0 bc').2 := by
                rw [hc2, hn1.2, List.append_nil]
              have htop1 : RTopo es (visit es f (path ++ [u]) v0 bc').1 :=
                htopo1 ht hr1eq
              have hv0r1 : v0 ∈ (visit es f (path ++ [u]) v0 bc').1 := by
                rcases hmem1 with h | h
                · exact h
                · by_cases hvb : v0 ∈ bc'.1
                  · rw [hb1]
                    exact List.mem_append_right _ hvb
                  · exfalso
                    have hr1 := hgray1 h hvb
                    have := congrArg (fun p => p.2.length) hr1
                    simp at this
                    rw [hr1eq] at this
                    omega
              obtain ⟨htop2, hall2⟩ := htopo2 htop1 hr2eq
              refine ⟨htop2, ?_⟩
              intro v hv
              rcases List.mem_cons.mp hv with h | h
              · subst h
                rw [hb2]
                exact List.mem_append_right _ hv0r1
              · exact hall2 v h
        -- assemble the master conclusions for the fresh-node branch
        obtain ⟨⟨nb', hb', hfresh'⟩, ⟨nc', hc', hcyc'⟩, hnd'', hsl'',
          hemit'', htopo''⟩ :=
          hfold (succs es u) (fun v hv => mem_succs.mp hv) bc hbnd
        rw [visit_succ_new hub hup]
        have huZ : u ∈ path ++ [u] :=
          List.mem_append_right _ (List.mem_singleton.mpr rfl)
        have hunb' : u ∉ nb' := fun h => (hfresh' u h).1 huZ
        refine ⟨⟨u :: nb', ?_, ?_⟩, ⟨nc', hc', ?_⟩, ?_, Or.inl
          (List.mem_cons_self _ _), fun h => absurd h hup, ?_, ?_⟩
        · rw [List.cons_append, hb']
        · intro w hw
          rcases List.mem_cons.mp hw with h | h
          · subst h
            exact ⟨hup, hub⟩
          · have := hfresh' w h
            exact ⟨fun hwp => this.1 (List.mem_append_left _ hwp), this.2⟩
        · intro hok hlink x hx
          have hok' : PathOk es (path ++ [u]) := by
            unfold PathOk
            rw [List.chain'_append]
            refine ⟨hok, List.chain'_singleton u, ?_⟩
            intro a ha y hy
            simp only [List.head?_cons, Option.mem_def,
              Option.some.injEq] at hy
            exact hy ▸ hlink a ha
          exact hcyc' hok' x hx
        · refine List.nodup_cons.mpr ⟨?_, hnd''⟩
          rw [hb']
          intro hmem
          rcases List.mem_append.mp hmem with h | h
          · exact hunb' h
          · exact hub h
        · intro hsl w hw he
          rcases List.mem_cons.mp hw with h | h
          · subst h
            have hdrop := hemit'' w (mem_succs.mpr he) huZ hub
            rw [dropTo_concat_self w hup] at hdrop
            exact hdrop
          · exact hsl'' hsl w h he
        · intro ht heq
          obtain ⟨htop, hall⟩ := htopo'' ht heq
          exact RTopo_cons.mpr ⟨hall, htop⟩

/-- The top-level DFS fold: every listed node ends black, all emitted cycles
are real cycles, reported self-loops propagate, and with no emissions the
black list is in reverse-topological order. -/
theorem dfsAll_master (es : List (α × α)) :
    ∀ (ns : List α), (∀ x ∈ ns, x ∈ nodesOf es) →
    ∀ bc : List α × List (List α), bc.1.Nodup →
    (∃ nb, (ns.foldl
        (fun acc u => visit es ((nodesOf es).length + 1) [] u acc) bc).1 =
        nb ++ bc.1) ∧
    (∃ nc, (ns.foldl
        (fun acc u => visit es ((nodesOf es).length + 1) [] u acc) bc).2 =
        bc.2 ++ nc ∧ ∀ x ∈ nc, IsCycle es x) ∧
    (ns.foldl (fun acc u => visit es ((nodesOf es).length + 1) [] u acc)
      bc).1.Nodup ∧
    ((∀ w ∈ bc.1, (w, w) ∈ es → [w] ∈ bc.2) →
      ∀ w ∈ (ns.foldl
        (fun acc u => visit es ((nodesOf es).length + 1) [] u acc) bc).1,
        (w, w) ∈ es →
        [w] ∈ (ns.foldl
          (fun acc u => visit es ((nodesOf es).length + 1) [] u acc) bc).2) ∧
    (∀ u ∈ ns, u ∈ (ns.foldl
      (fun acc u => visit es ((nodesOf es).length + 1) [] u acc) bc).1) ∧
    (RTopo es bc.1 →
      (ns.foldl (fun acc u => visit es ((nodesOf es).length + 1) [] u acc)
        bc).2 = bc.2 →
      RTopo es (ns.foldl
        (fun acc u => visit es ((nodesOf es).length + 1) [] u acc) bc).1) := by
  intro ns
  induction ns with
  | nil =>
    intro _ bc hb
    simp only [List.foldl_nil]
    exact ⟨⟨[], by simp⟩, ⟨[], by simp, by simp⟩, hb, fun h => h, by simp,
      fun ht _ => ht⟩
  | cons u0 ns' ihn =>
    intro hns bc hb
    have hu0 : u0 ∈ nodesOf es := hns u0 (List.mem_cons_self _ _)
    obtain ⟨⟨nb1, hb1, _⟩, ⟨nc1, hc1, hcyc1⟩, hnd1, hmem1, hgray1, hsl1,
      htopo1⟩ :=
      visit_master es ((nodesOf es).length + 1) [] u0 bc hu0
        (by simp) List.nodup_nil (by omega) hb
    obtain ⟨⟨nb2, hb2⟩, ⟨nc2, hc2, hcyc2⟩, hnd2, hsl2, hall2, htopo2⟩ :=
      ihn (fun x hx => hns x (List.mem_cons_of_mem _ hx))
        (visit es ((nodesOf es).length + 1) [] u0 bc) hnd1
    rw [List.foldl_cons]
    refine ⟨⟨nb2 ++ nb1, ?_⟩, ⟨nc1 ++ nc2, ?_, ?_⟩, hnd2, ?_, ?_, ?_⟩
    · rw [hb2, hb1, List.append_assoc]
    · rw [hc2, hc1, List.append_assoc]
    · intro x hx
      rcases List.mem_append.mp hx with h | h
      · exact hcyc1 List.chain'_nil (by simp) x h
      · exact hcyc2 x h
    · intro hsl w hw he
      exact hsl2 (hsl1 hsl) w hw he
    · intro v hv
      rcases List.mem_cons.mp hv with h | h
      · subst h
        have hv1 : v ∈ (visit es ((nodesOf es).length + 1) [] v bc).1 := by
          rcases hmem1 with h | h
          · exact h
          · cases h
        rw [hb2]
        exact List.mem_append_right _ hv1
      · exact hall2 v h
    · intro ht heq
      have hn1 : nc1 = [] ∧ nc2 = [] := by
        rw [hc1] at hc2
        rw [hc2] at heq
        have hlen := congrArg List.length heq
        simp [List.length_append] at hlen
        exact ⟨hlen.1, hlen.2⟩
      have hr1eq : (visit es ((nodesOf es).length + 1) [] u0 bc).2 = bc.2 := by
        rw [hc1, hn1.1, List.append_nil]
      have hr2eq : (ns'.foldl
          (fun acc u => visit es ((nodesOf es).length + 1) [] u acc)
          (visit es ((nodesOf es).length + 1) [] u0 bc)).2 =
          (visit es ((nodesOf es).length + 1) [] u0 bc).2 := by
        rw [hc2, hn1.2, List.append_nil]
      exact htopo2 (htopo1 ht hr1eq) hr2eq

/-- Correctness of the spec-modelled DFS: no cycles are reported iff the
graph is acyclic, and every self-loop is reported as a one-node cycle. -/
theorem dfsAll_spec (es : List (α × α)) :
    ((dfsAll es).2 = [] ↔ Acyclic es) ∧
    (∀ a, (a, a) ∈ es → [a] ∈ (dfsAll es).2) := by
  obtain ⟨⟨nb, hb⟩, ⟨nc, hc, hcyc⟩, hnd, hsl, hall, htopo⟩ :=
    dfsAll_master es (nodesOf es) (fun x hx => hx) ([], []) List.nodup_nil
  rw [List.append_nil] at hb
  constructor
  · constructor
    · intro hemp
      exact RTopo_acyclic (htopo trivial hemp) hnd
        (fun x hx => hall x hx)
    · intro hacy
      by_contra hne
      obtain ⟨x, hx⟩ := List.exists_mem_of_ne_nil _ hne
      refine hacy ⟨x, ?_⟩
      apply hcyc
      unfold dfsAll at hx
      rw [hc] at hx
      simpa using hx
  · intro a ha
    have haN : a ∈ nodesOf es := @fst_mem_nodesOf _ _ es (a, a) ha
    exact hsl (by simp) a (hall a haN) ha

/-- C1: for every edge set restricted to the `blocks` and `parent-child`
dependency types, `detect_cycles` returns the empty set iff the directed
graph over those edges is acyclic; and every self-loop among those edges is
reported as a one-node cycle in the output. -/
theorem c1_detect_cycles_empty_iff_acyclic (deps : List DepRow) :
    (detect_cycles deps = [] ↔ Acyclic (restrictedEdges deps)) ∧
    (∀ a, (a, a) ∈ restrictedEdges deps → [a] ∈ detect_cycles deps) := by
  unfold detect_cycles
  exact dfsAll_spec (restrictedEdges deps)

/-- Witness for C1: a concrete store whose single `blocks` dependency is a
self-loop; the loop is reported as the one-node cycle. -/
theorem c1_detect_cycles_empty_iff_acyclic_witness :
    (str "a", str "a") ∈
      restrictedEdges [⟨str "a", str "a", str "blocks", 0, str "x"⟩] ∧
    [str "a"] ∈
      detect_cycles [⟨str "a", str "a", str "blocks", 0, str "x"⟩] :=
  ⟨by decide,
   (c1_detect_cycles_empty_iff_acyclic
     [⟨str "a", str "a", str "blocks", 0, str "x"⟩]).2 (str "a") (by decide)⟩

/-- C2: `compute_content_hash` is a pure function of the substantive fields
only — two issues agreeing on title, description, design,
acceptance_criteria, notes, status, priority, issue_type, assignee and
external_ref hash identically, whatever their ids, timestamps, compaction
metadata, labels, dependencies or comments. -/
theorem c2_content_hash_pure (i1 i2 : Issue)
    (ht : i1.title = i2.title)
    (hd : i1.description = i2.description)
    (hg : i1.design = i2.design)
    (ha : i1.acceptance_criteria = i2.acceptance_criteria)
    (hn : i1.notes = i2.notes)
    (hs : i1.status = i2.status)
    (hp : i1.priority = i2.priority)
    (hy : i1.issue_type = i2.issue_type)
    (hq : i1.assignee = i2.assignee)
    (hx : i1.external_ref = i2.external_ref) :
    i1.compute_content_hash = i2.compute_content_hash := by
  have hcb : contentBytes i1 = contentBytes i2 := by
    unfold contentBytes
    rw [ht, hd, hg, ha, hn, hs, hp, hy, hq, hx]
  unfold Issue.compute_content_hash
  rw [hcb]

/-- Witness for C2: the two concrete issues differ in id and timestamps but
agree on every substantive field, so their hashes agree. -/
theorem c2_content_hash_pure_witness :
    c2IssueA.id ≠ c2IssueB.id ∧
    c2IssueA.created_at ≠ c2IssueB.created_at ∧
    c2IssueA.labels ≠ c2IssueB.labels ∧
    c2IssueA.compute_content_hash = c2IssueB.compute_content_hash :=
  ⟨by decide, by decide, by decide,
   c2_content_hash_pure c2IssueA c2IssueB rfl rfl rfl rfl rfl rfl rfl rfl
     rfl rfl⟩

theorem natReprA_digits : ∀ f n, n < f → ∀ d ∈ natReprA f n,
    48 ≤ d ∧ d ≤ 57 := by
  intro f
  induction f with
  | zero => intro n hn; omega
  | succ f ihf =>
    intro n hnf d hd
    unfold natReprA at hd
    split at hd
    · next h =>
      rw [List.mem_singleton] at hd
      omega
    · next h =>
      rcases List.mem_append.mp hd with hm | hm
      · exact ihf (n / 10) (by omega) d hm
      · rw [List.mem_singleton] at hm
        have : n % 10 < 10 := Nat.mod_lt _ (by omega)
        omega

theorem natReprA_ne_nil : ∀ f n, n < f → natReprA f n ≠ [] := by
  intro f
  induction f with
  | zero => intro n hn; omega
  | succ f _ =>
    intro n _
    unfold natReprA
    split
    · exact List.cons_ne_nil _ _
    · exact List.append_ne_nil_of_right_ne_nil _ (List.cons_ne_nil _ _)

theorem natReprA_fuel : ∀ f g n, n < f → n < g →
    natReprA f n = natReprA g n := by
  intro f
  induction f with
  | zero => intro g n hn; omega
  | succ f ihf =>
    intro g n hnf hng
    cases g with
    | zero => omega
    | succ g =>
      unfold natReprA
      split
      · rfl
      · next h =>
        rw [ihf g (n / 10) (by omega) (by omega)]

theorem natReprA_inj : ∀ f n m, n < f → m < f →
    natReprA f n = natReprA f m → n = m := by
  intro f
  induction f with
  | zero => intro n m hn; omega
  | succ f ihf =>
    intro n m hnf hmf h
    unfold natReprA at h
    by_cases hn : n < 10 <;> by_cases hm : m < 10
    · rw [if_pos hn, if_pos hm] at h
      simp only [List.cons.injEq, and_true] at h
      omega
    · exfalso
      rw [if_pos hn, if_neg hm] at h
      have hne := natReprA_ne_nil f (m / 10) (by omega)
      cases hl : natReprA f (m / 10) with
      | nil => exact hne hl
      | cons a t =>
        rw [hl] at h
        have hlen := congrArg List.length h
        simp only [List.length_cons, List.length_append,
          List.length_singleton, List.length_nil] at hlen
        omega
    · exfalso
      rw [if_neg hn, if_pos hm] at h
      have hne := natReprA_ne_nil f (n / 10) (by omega)
      cases hl : natReprA f (n / 10) with
      | nil => exact hne hl
      | cons a t =>
        rw [hl] at h
        have hlen := congrArg List.length h
        simp only [List.length_cons, List.length_append,
          List.length_singleton, List.length_nil] at hlen
        omega
    · rw [if_neg hn, if_neg hm] at h
      have hsp := List.append_inj' h (by simp)
      have h1 := ihf (n / 10) (m / 10) (by omega) (by omega) hsp.1
      have h2 : 48 + n % 10 = 48 + m % 10 := by
        have h3 := hsp.2
        simp only [List.cons.injEq, and_true] at h3
        exact h3
      omega

theorem natRepr_inj {n m : Nat} (h : natRepr n = natRepr m) : n = m := by
  unfold natRepr at h
  have hn : natReprA (n + 1) n = natReprA (n + m + 1) n :=
    natReprA_fuel _ _ _ (by omega) (by omega)
  have hm : natReprA (m + 1) m = natReprA (n + m + 1) m :=
    natReprA_fuel _ _ _ (by omega) (by omega)
  rw [hn, hm] at h
  exact natReprA_inj _ _ _ (by omega) (by omega) h

theorem natRepr_digits {n : Nat} : ∀ d ∈ natRepr n, 48 ≤ d ∧ d ≤ 57 :=
  natReprA_digits (n + 1) n (by omega)

theorem natRepr_ne_nil (n : Nat) : natRepr n ≠ [] :=
  natReprA_ne_nil (n + 1) n (by omega)

theorem intRepr_noNul (p : Int) : 0 ∉ intRepr p := by
  cases p with
  | ofNat n =>
    intro h
    have := natRepr_digits 0 h
    omega
  | negSucc n =>
    intro h
    unfold intRepr at h
    rcases List.mem_cons.mp h with h | h
    · omega
    · have := natRepr_digits 0 h
      omega

theorem intRepr_inj {p q : Int} (h : intRepr p = intRepr q) : p = q := by
  cases p with
  | ofNat n =>
    cases q with
    | ofNat m =>
      simp only [intRepr] at h
      exact congrArg Int.ofNat (natRepr_inj h)
    | negSucc m =>
      exfalso
      simp only [intRepr] at h
      cases hl : natRepr n with
      | nil => exact natRepr_ne_nil n hl
      | cons d t =>
        rw [hl] at h
        simp only [List.cons.injEq] at h
        have hd := @natRepr_digits n d (hl ▸ List.mem_cons_self d t)
        obtain ⟨h45, -⟩ := h
        omega
  | negSucc n =>
    cases q with
    | ofNat m =>
      exfalso
      simp only [intRepr] at h
      cases hl : natRepr m with
      | nil => exact natRepr_ne_nil m hl
      | cons d t =>
        rw [hl] at h
        simp only [List.cons.injEq] at h
        have hd := @natRepr_digits m d (hl ▸ List.mem_cons_self d t)
        obtain ⟨h45, -⟩ := h
        omega
    | negSucc m =>
      simp only [intRepr, List.cons.injEq, true_and] at h
      have hnm : n + 1 = m + 1 := natRepr_inj h
      have : n = m := by omega
      rw [this]

theorem status_as_str_noNul (s : Status) : 0 ∉ s.as_str := by
  cases s <;> decide

theorem status_as_str_inj {s1 s2 : Status} (h : s1.as_str = s2.as_str) :
    s1 = s2 := by
  cases s1 <;> cases s2 <;> first
    | rfl
    | exact absurd h (by decide)

theorem issue_type_as_str_noNul (t : IssueType) : 0 ∉ t.as_str := by
  cases t <;> decide

theorem issue_type_as_str_inj {t1 t2 : IssueType}
    (h : t1.as_str = t2.as_str) : t1 = t2 := by
  cases t1 <;> cases t2 <;> first
    | rfl
    | exact absurd h (by decide)

/-- Sentinel-separated concatenation is injective on NUL-free prefixes. -/
theorem sep_inj : ∀ {xs ys as2 bs : List Nat}, 0 ∉ xs → 0 ∉ ys →
    xs ++ 0 :: as2 = ys ++ 0 :: bs → xs = ys ∧ as2 = bs := by
  intro xs
  induction xs with
  | nil =>
    intro ys as2 bs _ hy h
    cases ys with
    | nil => simpa using h
    | cons y ty =>
      exfalso
      simp only [List.nil_append, List.cons_append, List.cons.injEq] at h
      exact hy (h.1 ▸ List.mem_cons_self y ty)
  | cons x tx ihx =>
    intro ys as2 bs hx hy h
    cases ys with
    | nil =>
      exfalso
      simp only [List.nil_append, List.cons_append, List.cons.injEq] at h
      exact hx (h.1.symm ▸ List.mem_cons_self x tx)
    | cons y ty =>
      simp only [List.cons_append, List.cons.injEq] at h
      have hrec := ihx (fun hm => hx (List.mem_cons_of_mem x hm))
        (fun hm => hy (List.mem_cons_of_mem y hm)) h.2
      exact ⟨by rw [h.1, hrec.1], hrec.2⟩

theorem extBytes_inj {e1 e2 : Option RStr} (h1 : e1 ≠ some [])
    (h2 : e2 ≠ some []) (h : extBytes e1 = extBytes e2) : e1 = e2 := by
  cases e1 <;> cases e2 <;> simp_all [extBytes]

/-- NUL-free substantive text fields and a non-`Some("")` external_ref make
`contentBytes` injective on the substantive fields. -/
theorem contentBytes_inj (i1 i2 : Issue)
    (ht1 : 0 ∉ i1.title) (ht2 : 0 ∉ i2.title)
    (hd1 : 0 ∉ i1.description) (hd2 : 0 ∉ i2.description)
    (hg1 : 0 ∉ i1.design) (hg2 : 0 ∉ i2.design)
    (ha1 : 0 ∉ i1.acceptance_criteria) (ha2 : 0 ∉ i2.acceptance_criteria)
    (hn1 : 0 ∉ i1.notes) (hn2 : 0 ∉ i2.notes)
    (hq1 : 0 ∉ i1.assignee) (hq2 : 0 ∉ i2.assignee)
    (hx1 : i1.external_ref ≠ some []) (hx2 : i2.external_ref ≠ some [])
    (heq : contentBytes i1 = contentBytes i2) :
    i1.title = i2.title ∧ i1.description = i2.description ∧
    i1.design = i2.design ∧
    i1.acceptance_criteria = i2.acceptance_criteria ∧
    i1.notes = i2.notes ∧ i1.status = i2.status ∧
    i1.priority = i2.priority ∧ i1.issue_type = i2.issue_type ∧
    i1.assignee = i2.assignee ∧ i1.external_ref = i2.external_ref := by
  unfold contentBytes at heq
  obtain ⟨e1, heq⟩ := sep_inj ht1 ht2 heq
  obtain ⟨e2, heq⟩ := sep_inj hd1 hd2 heq
  obtain ⟨e3, heq⟩ := sep_inj hg1 hg2 heq
  obtain ⟨e4, heq⟩ := sep_inj ha1 ha2 heq
  obtain ⟨e5, heq⟩ := sep_inj hn1 hn2 heq
  obtain ⟨e6, heq⟩ := sep_inj (status_as_str_noNul i1.status)
    (status_as_str_noNul i2.status) heq
  obtain ⟨e7, heq⟩ := sep_inj (intRepr_noNul i1.priority)
    (intRepr_noNul i2.priority) heq
  obtain ⟨e8, heq⟩ := sep_inj (issue_type_as_str_noNul i1.issue_type)
    (issue_type_as_str_noNul i2.issue_type) heq
  obtain ⟨e9, heq⟩ := sep_inj hq1 hq2 heq
  exact ⟨e1, e2, e3, e4, e5, status_as_str_inj e6, intRepr_inj e7,
    issue_type_as_str_inj e8, e9, extBytes_inj hx1 hx2 heq⟩

/-- C3 counterexample: two issues that differ in a substantive field —
external_ref absent versus present (with empty contents) — are fed identical
byte sequences, because the external_ref bytes are appended with no
separator and only when present; hence their hashes are identical, refuting
the claim's inclusion of "external_ref absent versus present". -/
theorem c3_counterexample :
    c3IssueN.external_ref = none ∧ c3IssueS.external_ref = some [] ∧
    c3IssueN.external_ref ≠ c3IssueS.external_ref ∧
    contentBytes c3IssueN = contentBytes c3IssueS ∧
    c3IssueN.compute_content_hash = c3IssueS.compute_content_hash := by
  have h4 : contentBytes c3IssueN = contentBytes c3IssueS := rfl
  exact ⟨rfl, rfl, by decide, h4,
    congrArg (fun b => Sha256.toHex (Sha256.sha256 b)) h4⟩

/-- C3 (amended): when the substantive text fields of both issues contain no
NUL byte and neither issue's external_ref is `Some("")`, two issues that
differ in at least one substantive field are fed different byte sequences
(hence different hashes up to hash collision). -/
theorem c3_amended_distinct_bytes (i1 i2 : Issue)
    (ht1 : 0 ∉ i1.title) (ht2 : 0 ∉ i2.title)
    (hd1 : 0 ∉ i1.description) (hd2 : 0 ∉ i2.description)
    (hg1 : 0 ∉ i1.design) (hg2 : 0 ∉ i2.design)
    (ha1 : 0 ∉ i1.acceptance_criteria) (ha2 : 0 ∉ i2.acceptance_criteria)
    (hn1 : 0 ∉ i1.notes) (hn2 : 0 ∉ i2.notes)
    (hq1 : 0 ∉ i1.assignee) (hq2 : 0 ∉ i2.assignee)
    (hx1 : i1.external_ref ≠ some []) (hx2 : i2.external_ref ≠ some [])
    (hdiff : ¬(i1.title = i2.title ∧ i1.description = i2.description ∧
      i1.design = i2.design ∧
      i1.acceptance_criteria = i2.acceptance_criteria ∧
      i1.notes = i2.notes ∧ i1.status = i2.status ∧
      i1.priority = i2.priority ∧ i1.issue_type = i2.issue_type ∧
      i1.assignee = i2.assignee ∧ i1.external_ref = i2.external_ref)) :
    contentBytes i1 ≠ contentBytes i2 := by
  intro heq
  exact hdiff (contentBytes_inj i1 i2 ht1 ht2 hd1 hd2 hg1 hg2 ha1 ha2
    hn1 hn2 hq1 hq2 hx1 hx2 heq)

/-- Witness for the amended C3: two NUL-free issues that differ in title get
different hash inputs. -/
theorem c3_amended_distinct_bytes_witness :
    c3IssueN.title ≠ c3IssueT.title ∧
    contentBytes c3IssueN ≠ contentBytes c3IssueT :=
  ⟨by decide,
   c3_amended_distinct_bytes c3IssueN c3IssueT (by decide) (by decide)
     (by decide) (by decide) (by decide) (by decide) (by decide) (by decide)
     (by decide) (by decide) (by decide) (by decide) (by decide) (by decide)
     (by decide)⟩

/-- C7 counterexample: an issue satisfying none of the claim's
validation-error conditions on which `validate` still returns an error
(negative `estimated_minutes`). -/
theorem c7_counterexample :
    specValidationErrorCond c7Issue = false ∧
    c7Issue.validate =
      Except.error (str "estimated_minutes cannot be negative") := by
  constructor
  · decide
  · rfl

/-- C7 (amended): `validate` returns an error iff one of the claim's
conditions holds or `estimated_minutes` is negative; it returns `Ok` on
every issue satisfying none of these. -/
theorem c7_amended_validate_iff (i : Issue) :
    i.validate ≠ Except.ok () ↔
      (specValidationErrorCond i || negEstimatedMinutes i) = true := by
  unfold Issue.validate specValidationErrorCond negEstimatedMinutes
  split_ifs with h1 h2 h3 h4 h5 h6 h7 h8
  all_goals simp_all [Status.is_valid, IssueType.is_valid]

theorem runOp_append (s2 : List Step) (fault : Nat → Bool) :
    ∀ (s1 : List Step) (k : Nat) (st : Store),
    runOp (s1 ++ s2) fault k st =
      (if (runOp s1 fault k st).2 then
        runOp s2 fault (k + s1.length) (runOp s1 fault k st).1
      else runOp s1 fault k st) := by
  intro s1
  induction s1 with
  | nil =>
    intro k st
    simp [runOp]
  | cons s rest ih =>
    intro k st
    by_cases hf : fault k
    · simp [runOp, hf]
    · cases hs : s st with
      | none => simp [runOp, hf, hs]
      | some st' =>
        have h1 : runOp ((s :: rest) ++ s2) fault k st =
            runOp (rest ++ s2) fault (k + 1) st' := by
          simp [runOp, hf, hs]
        have h2 : runOp (s :: rest) fault k st =
            runOp rest fault (k + 1) st' := by
          simp [runOp, hf, hs]
        rw [h1, h2, ih]
        have hk : k + 1 + rest.length = k + (rest.length + 1) := by omega
        simp [List.length_cons, hk]

/-- Every operation that ends in a `mark_dirty` statement leaves the marked
id in the dirty set when it succeeds. -/
theorem runSteps_mark_dirty (steps : List Step) (id : RStr) (st : Store)
    (h : (runSteps (steps ++ [mark_dirty id]) st).2 = true) :
    id ∈ (runSteps (steps ++ [mark_dirty id]) st).1.dirty_issues := by
  unfold runSteps at h ⊢
  rw [runOp_append] at h ⊢
  by_cases h2 : (runOp steps (fun _ => false) 0 st).2
  · rw [if_pos h2] at h ⊢
    simp [runOp, mark_dirty]
  · rw [if_neg h2] at h
    exact absurd h (by simpa using h2)

/-- C6: each successful mutating operation (create_issue, update_issue,
close_issue, add_dependency, remove_dependency, add_label, remove_label,
add_issue_comment) leaves the affected issue id in `get_dirty_issues`, and
re-marking an already-dirty id leaves the dirty set's membership
unchanged. -/
theorem c6_mutations_mark_dirty (st : Store) (i : Issue)
    (actor id label text author reason dep_id : RStr)
    (updates : List (RStr × RStr)) (d : Dependency) (now : Int) :
    ((create_issue st i actor).2 = true →
      i.id ∈ get_dirty_issues (create_issue st i actor).1) ∧
    ((update_issue st id updates actor now).2 = true →
      id ∈ get_dirty_issues (update_issue st id updates actor now).1) ∧
    ((close_issue st id reason actor now).2 = true →
      id ∈ get_dirty_issues (close_issue st id reason actor now).1) ∧
    ((add_dependency st d actor).2 = true →
      d.issue_id ∈ get_dirty_issues (add_dependency st d actor).1) ∧
    ((remove_dependency st id dep_id actor).2 = true →
      id ∈ get_dirty_issues (remove_dependency st id dep_id actor).1) ∧
    ((add_label st id label actor).2 = true →
      id ∈ get_dirty_issues (add_label st id label actor).1) ∧
    ((remove_label st id label actor).2 = true →
      id ∈ get_dirty_issues (remove_label st id label actor).1) ∧
    ((add_issue_comment st id author text).2 = true →
      id ∈ get_dirty_issues (add_issue_comment st id author text).1) ∧
    (∀ st2 x, mark_dirty id st = some st2 → id ∈ st.dirty_issues →
      (x ∈ st2.dirty_issues ↔ x ∈ st.dirty_issues)) := by
  refine ⟨?_, ?_, ?_, ?_, ?_, ?_, ?_, ?_, ?_⟩
  · intro h
    unfold create_issue create_issue_steps at h ⊢
    exact runSteps_mark_dirty
      [insert_issue i, record_event i.id .Created actor none none none]
      i.id st h
  · intro h
    unfold update_issue update_issue_steps at h ⊢
    exact runSteps_mark_dirty _ _ _ h
  · intro h
    unfold close_issue close_issue_steps at h ⊢
    exact runSteps_mark_dirty
      [close_update id now,
       record_event id .Closed actor none none (some reason)] id st h
  · intro h
    unfold add_dependency add_dependency_steps at h ⊢
    exact runSteps_mark_dirty
      [insert_dependency d,
       record_event d.issue_id .DependencyAdded actor none
         (some d.depends_on_id) none] d.issue_id st h
  · intro h
    unfold remove_dependency remove_dependency_steps at h ⊢
    exact runSteps_mark_dirty
      [delete_dependency id dep_id,
       record_event id .DependencyRemoved actor (some dep_id) none none]
      id st h
  · intro h
    unfold add_label add_label_steps at h ⊢
    exact runSteps_mark_dirty
      [insert_label id label,
       record_event id .LabelAdded actor none (some label) none] id st h
  · intro h
    unfold remove_label remove_label_steps at h ⊢
    exact runSteps_mark_dirty
      [delete_label id label,
       record_event id .LabelRemoved actor (some label) none none] id st h
  · intro h
    unfold add_issue_comment add_issue_comment_steps at h ⊢
    exact runSteps_mark_dirty
      [insert_comment id author text,
       record_event id .Commented author none none (some text)] id st h
  · intro st2 x hmark hdirty
    unfold mark_dirty at hmark
    have hst2 : st2.dirty_issues =
        st.dirty_issues.filter (fun y => decide (y ≠ id)) ++ [id] := by
      cases hmark
      rfl
    rw [hst2]
    by_cases hx : x = id
    · subst hx
      simp [hdirty]
    · simp only [List.mem_append, List.mem_filter, List.mem_singleton]
      constructor
      · rintro (⟨hm, _⟩ | he)
        · exact hm
        · exact absurd he hx
      · intro hm
        exact Or.inl ⟨hm, by simpa using hx⟩

/-- Witness for C6 at concrete inputs: every operation leaves its id dirty,
and re-marking the already-dirty id keeps membership unchanged. -/
theorem c6_mutations_mark_dirty_witness :
    c6Issue.id ∈
      get_dirty_issues (create_issue c6Store c6Issue (str "me")).1 ∧
    str "z" ∈ get_dirty_issues
      (update_issue c6Store (str "z") [(str "title", str "t2")]
        (str "me") 7).1 ∧
    str "z" ∈ get_dirty_issues
      (close_issue c6Store (str "z") (str "r") (str "me") 7).1 ∧
    c6Dep.issue_id ∈
      get_dirty_issues (add_dependency c6Store c6Dep (str "me")).1 ∧
    str "z" ∈ get_dirty_issues
      (remove_dependency c6Store (str "z") (str "q") (str "me")).1 ∧
    str "z" ∈ get_dirty_issues
      (add_label c6Store (str "z") (str "l") (str "me")).1 ∧
    str "z" ∈ get_dirty_issues
      (remove_label c6Store (str "z") (str "l") (str "me")).1 ∧
    str "z" ∈ get_dirty_issues
      (add_issue_comment c6Store (str "z") (str "au") (str "txt")).1 ∧
    (str "y" ∈ c6Marked.dirty_issues ↔ str "y" ∈ c6Store.dirty_issues) := by
  have T := c6_mutations_mark_dirty c6Store c6Issue (str "me") (str "z")
    (str "l") (str "txt") (str "au") (str "r") (str "q")
    [(str "title", str "t2")] c6Dep 7
  exact ⟨T.1 (by decide), T.2.1 (by decide), T.2.2.1 (by decide),
    T.2.2.2.1 (by decide), T.2.2.2.2.1 (by decide),
    T.2.2.2.2.2.1 (by decide), T.2.2.2.2.2.2.1 (by decide),
    T.2.2.2.2.2.2.2.1 (by decide),
    T.2.2.2.2.2.2.2.2 c6Marked (str "y") (by decide) (by decide)⟩

/-- C8: the write paths are NOT atomic as a unit.  The Rust code executes
each SQL statement directly on the autocommit connection with no enclosing
transaction, so when the `events` insert of `create_issue` fails after the
`issues` insert committed, the operation reports an error while the inserted
issue row remains observable and neither the Event nor the dirty mark
exists — refuting all-or-nothing behaviour. -/
theorem c8_create_issue_not_atomic :
    (runOp (create_issue_steps c8Issue (str "me"))
      (fun k => decide (k = 1)) 0 emptyStore).2 = false ∧
    (runOp (create_issue_steps c8Issue (str "me"))
      (fun k => decide (k = 1)) 0 emptyStore).1.issues =
      [rowOfIssue c8Issue] ∧
    (runOp (create_issue_steps c8Issue (str "me"))
      (fun k => decide (k = 1)) 0 emptyStore).1.events = [] ∧
    (runOp (create_issue_steps c8Issue (str "me"))
      (fun k => decide (k = 1)) 0 emptyStore).1.dirty_issues = [] := by
  exact ⟨by decide, by decide, by decide, by decide⟩

/-- C9: close_issue and update_issue on an id that is not in the store do
NOT report NotFound and do NOT leave the store unchanged: the UPDATE matches
zero rows and succeeds, then an audit Event is appended and a dirty mark is
added for the nonexistent id, and the operation returns success. -/
theorem c9_missing_id_not_reported :
    (close_issue emptyStore (str "nope") (str "done") (str "me") 5).2 =
      true ∧
    (close_issue emptyStore (str "nope") (str "done") (str "me") 5).1.issues
      = [] ∧
    (close_issue emptyStore (str "nope") (str "done") (str "me")
      5).1.events.length = 1 ∧
    str "nope" ∈ (close_issue emptyStore (str "nope") (str "done")
      (str "me") 5).1.dirty_issues ∧
    (update_issue emptyStore (str "nope") [(str "title", str "x")]
      (str "me") 5).2 = true ∧
    (update_issue emptyStore (str "nope") [(str "title", str "x")]
      (str "me") 5).1.events.length = 1 ∧
    str "nope" ∈ (update_issue emptyStore (str "nope")
      [(str "title", str "x")] (str "me") 5).1.dirty_issues := by
  exact ⟨by decide, by decide, by decide, by decide, by decide, by decide,
    by decide⟩

/-- C10: storing a valid issue and reading it back does not round-trip — it
panics.  `create_issue` stores `status` as the bare text of
`Status::as_str` (`open`), but `get_issue` parses that column with
`serde_json::from_str::<Status>(..).unwrap()`, which expects a quoted JSON
string; the bare word is not a valid JSON document, the parse fails, and the
`unwrap` panics. -/
theorem c10_get_issue_after_create_panics :
    c10Issue.validate = Except.ok () ∧
    (create_issue emptyStore c10Issue (str "me")).2 = true ∧
    statusFromJson Status.Open.as_str = none ∧
    get_issue (create_issue emptyStore c10Issue (str "me")).1 c10Issue.id =
      GetIssueResult.panicked := by
  exact ⟨rfl, by decide, by decide, by decide⟩

/-- C5: an epic appears in the output of `get_epics_eligible_for_closure`
with `eligible_for_close = true` iff it is an epic-typed issue of the store
that has at least one `parent-child` child (child on the issue_id side, epic
on the depends_on_id side) and every such child has status `closed`; in
particular an epic with zero children is never eligible, and an epic with an
open child is not eligible. -/
theorem c5_epic_eligible_iff_children_closed (st : Store) (e : IssueRow) :
    (∃ es ∈ get_epics_eligible_for_closure st,
      es.epic = e ∧ es.eligible_for_close = true) ↔
    (e ∈ st.issues ∧ e.issue_type = str "epic" ∧
     childrenOf st e.id ≠ [] ∧
     ∀ c ∈ childrenOf st e.id, c.status = str "closed") := by
  constructor
  · rintro ⟨es, hmem, hepic, helig⟩
    unfold get_epics_eligible_for_closure at hmem
    rcases List.mem_map.mp hmem with ⟨e', he', hes⟩
    have hee : e' = e := by
      rw [← hes] at hepic
      simpa [epicStatusOf] using hepic
    subst hee
    have hfil := List.mem_filter.mp he'
    refine ⟨hfil.1, by simpa using hfil.2, ?_, ?_⟩
    · rw [← hes] at helig
      simp only [epicStatusOf, Bool.and_eq_true, decide_eq_true_eq] at helig
      intro hnil
      rw [hnil] at helig
      simp at helig
    · rw [← hes] at helig
      simp only [epicStatusOf, Bool.and_eq_true, decide_eq_true_eq] at helig
      have hcount : List.countP (fun c => decide (c.status = str "closed"))
          (childrenOf st e'.id) = (childrenOf st e'.id).length := by
        rw [List.countP_eq_length_filter]
        exact helig.2
      intro c hc
      have := List.countP_eq_length.mp hcount c hc
      simpa using this
  · rintro ⟨he, htype, hne, hclosed⟩
    refine ⟨epicStatusOf st e, ?_, by simp [epicStatusOf], ?_⟩
    · unfold get_epics_eligible_for_closure
      exact List.mem_map_of_mem _
        (List.mem_filter.mpr ⟨he, by simpa using htype⟩)
    · simp only [epicStatusOf, Bool.and_eq_true, decide_eq_true_eq]
      constructor
      · exact List.length_pos.mpr hne
      · rw [← List.countP_eq_length_filter]
        exact List.countP_eq_length.mpr
          (fun c hc => by simpa using hclosed c hc)

theorem mem_sortReady (policy : SortPolicy) (now : Int)
    (rows : List IssueRow) (r : IssueRow) :
    r ∈ sortReady policy now rows ↔ r ∈ rows := by
  cases policy with
  | Priority => exact List.mem_insertionSort _
  | Oldest => exact List.mem_insertionSort _
  | Hybrid =>
    simp only [sortReady, List.mem_append, List.mem_insertionSort,
      List.mem_filter]
    constructor
    · rintro (⟨h, _⟩ | ⟨h, _⟩) <;> exact h
    · intro h
      by_cases hrec : now - r.created_at < recentWindow
      · exact Or.inl ⟨h, by simpa using hrec⟩
      · exact Or.inr ⟨h, by simpa using hrec⟩

theorem mem_get_ready_work (st : Store) (f : WorkFilter) (now : Int)
    (hlim : f.limit ≤ 0) (r : IssueRow) :
    r ∈ get_ready_work st f now ↔
      r ∈ st.issues ∧ isReady st f r = true := by
  unfold get_ready_work applyLimit
  rw [if_pos hlim, mem_sortReady, List.mem_filter]

theorem matches_default (st : Store) (r : IssueRow) :
    matchesWorkFilter st WorkFilter.default r = true := by
  simp [matchesWorkFilter, WorkFilter.default]

theorem isReady_status_ne (st : Store) (f : WorkFilter) (r : IssueRow)
    (h : r.status ≠ str "open") : isReady st f r = false := by
  unfold isReady
  have hd : decide (r.status = str "open") = false := by simpa using h
  simp [hd]

theorem close_issue_state (st : Store) (id reason actor : RStr) (now : Int) :
    (close_issue st id reason actor now).1.issues =
      st.issues.map (fun r => if r.id = id then
        { r with status := str "closed", closed_at := some now,
                 updated_at := now }
      else r) ∧
    (close_issue st id reason actor now).1.dependencies =
      st.dependencies ∧
    (close_issue st id reason actor now).1.labels = st.labels ∧
    (close_issue st id reason actor now).2 = true := by
  simp [close_issue, close_issue_steps, runSteps, runOp, close_update,
    record_event, mark_dirty]

/-- C4: in a store holding open issues A and B and the single `blocks` edge
"B depends on A", `get_ready_work` under the default filter returns A and
excludes B; after `close_issue` on A it returns B and excludes A. -/
theorem c4_ready_work_scenario (st : Store) (ra rb : IssueRow)
    (dc : Int) (db reason actor : RStr) (now now2 tclose : Int)
    (hiss : st.issues = [ra, rb])
    (hdep : st.dependencies = [⟨rb.id, ra.id, str "blocks", dc, db⟩])
    (hra : ra.status = str "open") (hrb : rb.status = str "open")
    (hne : ra.id ≠ rb.id) :
    (ra.id ∈ (get_ready_work st WorkFilter.default now).map IssueRow.id ∧
     rb.id ∉ (get_ready_work st WorkFilter.default now).map IssueRow.id) ∧
    (rb.id ∈ (get_ready_work (close_issue st ra.id reason actor tclose).1
        WorkFilter.default now2).map IssueRow.id ∧
     ra.id ∉ (get_ready_work (close_issue st ra.id reason actor tclose).1
        WorkFilter.default now2).map IssueRow.id) := by
  have hlim : WorkFilter.default.limit ≤ 0 := by
    simp [WorkFilter.default]
  have hne' : rb.id ≠ ra.id := fun h => hne h.symm
  -- readiness in the initial store
  have hready_a : isReady st WorkFilter.default ra = true := by
    simp [isReady, hra, hdep, matches_default, unresolvedBlocker, hne']
  have hready_b : isReady st WorkFilter.default rb = false := by
    simp [isReady, hrb, hdep, matches_default, unresolvedBlocker, hiss,
      List.find?, hra]
    all_goals decide
  -- the closed store
  obtain ⟨hiss', hdep', _, _⟩ := close_issue_state st ra.id reason actor
    tclose
  rw [hiss] at hiss'
  have hmap : (close_issue st ra.id reason actor tclose).1.issues =
      [{ ra with status := str "closed", closed_at := some tclose,
                 updated_at := tclose }, rb] := by
    rw [hiss']
    simp [hne']
  rw [hdep] at hdep'
  have hready_b' : isReady (close_issue st ra.id reason actor tclose).1
      WorkFilter.default rb = true := by
    simp [isReady, hrb, hdep', matches_default, unresolvedBlocker, hmap,
      List.find?]
  have hready_a' : isReady (close_issue st ra.id reason actor tclose).1
      WorkFilter.default
      { ra with status := str "closed", closed_at := some tclose,
                updated_at := tclose } = false :=
    isReady_status_ne _ _ _
      (fun hco => absurd hco (by decide : ¬(str "closed" = str "open")))
  refine ⟨⟨?_, ?_⟩, ?_, ?_⟩
  · exact List.mem_map.mpr ⟨ra, (mem_get_ready_work st _ now hlim ra).mpr
      ⟨by rw [hiss]; exact List.mem_cons_self _ _, hready_a⟩, rfl⟩
  · intro hmem
    rcases List.mem_map.mp hmem with ⟨x, hx, hxid⟩
    have hx2 := (mem_get_ready_work st _ now hlim x).mp hx
    rw [hiss] at hx2
    rcases List.mem_cons.mp hx2.1 with h | h
    · subst h
      exact hne (hxid ▸ rfl)
    · rw [List.mem_singleton] at h
      subst h
      rw [hready_b] at hx2
      exact absurd hx2.2 (by simp)
  · refine List.mem_map.mpr ⟨rb, (mem_get_ready_work _ _ now2 hlim rb).mpr
      ⟨?_, hready_b'⟩, rfl⟩
    rw [hmap]
    exact List.mem_cons_of_mem _ (List.mem_singleton.mpr rfl)
  · intro hmem
    rcases List.mem_map.mp hmem with ⟨x, hx, hxid⟩
    have hx2 := (mem_get_ready_work _ _ now2 hlim x).mp hx
    rw [hmap] at hx2
    rcases List.mem_cons.mp hx2.1 with h | h
    · subst h
      rw [hready_a'] at hx2
      exact absurd hx2.2 (by simp)
    · rw [List.mem_singleton] at h
      subst h
      exact hne' (hxid ▸ rfl)

/-- Witness for C4 at the concrete two-issue store. -/
theorem c4_ready_work_scenario_witness :
    (c4RowA.id ∈
      (get_ready_work c4Store WorkFilter.default 0).map IssueRow.id ∧
     c4RowB.id ∉
      (get_ready_work c4Store WorkFilter.default 0).map IssueRow.id) ∧
    (c4RowB.id ∈
      (get_ready_work
        (close_issue c4Store c4RowA.id (str "done") (str "me") 9).1
        WorkFilter.default 0).map IssueRow.id ∧
     c4RowA.id ∉
      (get_ready_work
        (close_issue c4Store c4RowA.id (str "done") (str "me") 9).1
        WorkFilter.default 0).map IssueRow.id) :=
  c4_ready_work_scenario c4Store c4RowA c4RowB 0 (str "me") (str "done")
    (str "me") 0 0 9 rfl rfl rfl rfl (by decide)

